import Mathlib

/-!
# A shallow embedding of the Mercury Rockstar interpreter (`src/__main__.py`)

This file translates the single-file Python interpreter into Lean:

* Python runtime values (`int`, `bool`, `str`, `float`, `None`) become `Val`;
  floats are modelled by exact fractions.  Binary64 arithmetic on `n ± 0.5`
  (and `round` of the result) is exact only while `|n| < 2^52` — beyond that
  the coercion of the Python `int` to `float` already rounds — so every
  theorem below that quantifies over an integer fed into float arithmetic
  carries that bound explicitly, and the concrete programs stay far inside it.
* Python dicts become association lists that preserve insertion order and
  overwrite in place, exactly like `dict.__setitem__`.
* The evaluator (`eval_statements` / `eval_statement` / `eval_expression` /
  `eval_function_call`) becomes one fuel-indexed structurally recursive
  function `evalFuel`; `none` means the fuel ran out (the Python code did not
  return within that many steps), `some (.error e)` means the Python code
  raised the host exception `e`, `some (.ok (s, v))` means it returned.
* The process-wide mutable **default argument** `function_table={}` of
  `eval_statements` is modelled explicitly: the interpreter state `S` carries
  that shared dict (`S.shared`), and each running frame holds a `TblRef`
  telling whether its `function_table` variable is that shared dict or a
  `.copy()` made by `eval_function_call`.
* The parser (tokenize, the `try_parse_*` family, `parse_line`, `treeify`,
  `parse_source`) is translated below the evaluator; `try_parse_expression`
  contains a genuine `while` loop that need not terminate, so it is also
  fuel-indexed.

Abstractions (noted where they occur): the textual rendering of numbers by
`print` is not modelled bit-for-bit (`pyStr` of a rational), and `pprint` /
`print` diagnostics are collected as strings rather than formatted.
-/

namespace Mercury

/-! ## Python values -/

/-- An exact fraction standing in for a Python `float`.  The denominator is
kept positive by every operation below; fractions are not reduced, and all
comparisons go through cross-multiplication, so everything computes by
kernel reduction.  This exact model agrees with Python's binary64 floats
only where the float arithmetic is exact: for `n ± 0.5` and `round` of it
that means `|n| < 2^52` (past that, coercing the `int` to `float` rounds),
so statements about `Turn` on a symbolic integer are bounded accordingly. -/
structure PyFloat where
  num : Int
  den : Int
  deriving DecidableEq, Repr

/-- The exact value of a `PyFloat` as a rational number (specification
only; the interpreter itself never computes with `ℚ`). -/
def PyFloat.val (x : PyFloat) : ℚ := (x.num : ℚ) / (x.den : ℚ)

def pfAdd (a b : PyFloat) : PyFloat := ⟨a.num * b.den + b.num * a.den, a.den * b.den⟩

def pfSub (a b : PyFloat) : PyFloat := ⟨a.num * b.den - b.num * a.den, a.den * b.den⟩

def pfMul (a b : PyFloat) : PyFloat := ⟨a.num * b.num, a.den * b.den⟩

/-- Division, restoring the positive denominator. -/
def pfDiv (a b : PyFloat) : PyFloat :=
  let n := a.num * b.den
  let d := a.den * b.num
  if d < 0 then ⟨-n, -d⟩ else ⟨n, d⟩

def pfEq (a b : PyFloat) : Bool := a.num * b.den = b.num * a.den

def pfLt (a b : PyFloat) : Bool := a.num * b.den < b.num * a.den

def pfLe (a b : PyFloat) : Bool := a.num * b.den ≤ b.num * a.den

/-- A Python runtime value as this interpreter uses them: `int`, `bool`,
`str`, `float` (an exact fraction) and `None` (the value of a function
call that falls off the end of its body). -/
inductive Val where
  | int (n : Int)
  | bool (b : Bool)
  | str (s : String)
  | rat (q : PyFloat)
  | none
  deriving DecidableEq, Repr

/-- Numeric view used by Python arithmetic: `bool` counts as `0`/`1`. -/
def intVal : Val → Option Int
  | .int n => some n
  | .bool b => some (if b then 1 else 0)
  | _ => Option.none

/-- Numeric view including floats, as Python mixed arithmetic sees it. -/
def ratVal : Val → Option PyFloat
  | .int n => some ⟨n, 1⟩
  | .bool b => some ⟨if b then 1 else 0, 1⟩
  | .rat q => some q
  | _ => Option.none

/-- Python `round` on an exact value `q = num/den` (`den > 0`): nearest
integer, ties to even.  With `f = ⌊q⌋` and `r = q - f`, the comparison of
`r` against `1/2` is `2 * (num - f * den)` against `den`. -/
def pyRound (x : PyFloat) : Int :=
  let f := Int.fdiv x.num x.den
  let t := 2 * (x.num - f * x.den)
  if t < x.den then f
  else if x.den < t then f + 1
  else if f % 2 = 0 then f else f + 1

/-- Python truthiness (`if res:`). -/
def pyTruthy : Val → Bool
  | .int n => n ≠ 0
  | .bool b => b
  | .str s => s ≠ ""
  | .rat q => q.num ≠ 0
  | .none => false

/-- Python `==` for the value kinds that occur here: numbers (including
`bool`) compare by numeric value across kinds, strings by content, `None`
only equals `None`, and everything else is unequal. -/
def pyEq (l r : Val) : Bool :=
  match l, r with
  | .str a, .str b => a = b
  | .none, .none => true
  | .str _, _ => false
  | _, .str _ => false
  | _, _ =>
    match ratVal l, ratVal r with
    | some a, some b => pfEq a b
    | _, _ => false

/-- The host exceptions the interpreter can raise at evaluation time, plus
the ones the parser can raise (`IndexError` from unguarded indexing,
`ValueError` from `list.index`). -/
inductive Err where
  | valueError (msg : String)
  | typeError
  | zeroDivisionError
  | assertionError
  | eofError
  | indexError
  deriving DecidableEq, Repr

/-- Python `str.lower` (kernel-computable form). -/
def py_lower (s : String) : String := ⟨s.data.map Char.toLower⟩

/-- Python `str.startswith` (kernel-computable form). -/
def py_startswith (s pat : String) : Bool := pat.data.isPrefixOf s.data

/-- Python `<` on strings: lexicographic by code point. -/
def listLtChar : List Char → List Char → Bool
  | [], [] => false
  | [], _ :: _ => true
  | _ :: _, [] => false
  | a :: as, b :: bs =>
    if a < b then true else if b < a then false else listLtChar as bs

/-- Python string `<`. -/
def pyStrLt (a b : String) : Bool := listLtChar a.data b.data

/-- Python string `<=`. -/
def pyStrLe (a b : String) : Bool := pyStrLt a b || decide (a = b)

/-- Python `str * int` repetition (non-positive counts give `""`). -/
def strRepeat (s : String) (n : Int) : String :=
  (List.replicate n.toNat s).foldl (· ++ ·) ""

/-- Python `+` on these values. -/
def pyAdd (l r : Val) : Except Err Val :=
  match l, r with
  | .str a, .str b => .ok (.str (a ++ b))
  | .str _, _ => .error .typeError
  | _, .str _ => .error .typeError
  | _, _ =>
    match intVal l, intVal r with
    | some a, some b => .ok (.int (a + b))
    | _, _ =>
      match ratVal l, ratVal r with
      | some a, some b => .ok (.rat (pfAdd a b))
      | _, _ => .error .typeError

/-- Python `-` on these values. -/
def pySub (l r : Val) : Except Err Val :=
  match intVal l, intVal r with
  | some a, some b => .ok (.int (a - b))
  | _, _ =>
    match ratVal l, ratVal r with
    | some a, some b => .ok (.rat (pfSub a b))
    | _, _ => .error .typeError

/-- Python `*` on these values (string repetition included). -/
def pyMul (l r : Val) : Except Err Val :=
  match l, r with
  | .str a, _ =>
    match intVal r with
    | some n => .ok (.str (strRepeat a n))
    | Option.none => .error .typeError
  | _, .str b =>
    match intVal l with
    | some n => .ok (.str (strRepeat b n))
    | Option.none => .error .typeError
  | _, _ =>
    match intVal l, intVal r with
    | some a, some b => .ok (.int (a * b))
    | _, _ =>
      match ratVal l, ratVal r with
      | some a, some b => .ok (.rat (pfMul a b))
      | _, _ => .error .typeError

/-- Python `/` (true division: always a float; division by zero raises). -/
def pyDiv (l r : Val) : Except Err Val :=
  match ratVal l, ratVal r with
  | some a, some b =>
    if b.num = 0 then .error .zeroDivisionError else .ok (.rat (pfDiv a b))
  | _, _ => .error .typeError

/-- Python `<` on these values (numbers cross-kind, strings lexicographic,
anything else raises `TypeError`). -/
def pyLt (l r : Val) : Except Err Bool :=
  match l, r with
  | .str a, .str b => .ok (pyStrLt a b)
  | .str _, _ => .error .typeError
  | _, .str _ => .error .typeError
  | _, _ =>
    match ratVal l, ratVal r with
    | some a, some b => .ok (pfLt a b)
    | _, _ => .error .typeError

/-- Python `<=`. -/
def pyLe (l r : Val) : Except Err Bool :=
  match l, r with
  | .str a, .str b => .ok (pyStrLe a b)
  | .str _, _ => .error .typeError
  | _, .str _ => .error .typeError
  | _, _ =>
    match ratVal l, ratVal r with
    | some a, some b => .ok (pfLe a b)
    | _, _ => .error .typeError

/-- The `if op[1] == ...` chain of `eval_expression` (lines 592-611): each
operator name combines the running left value with the next evalable; an
unrecognised name leaves `left` unchanged, exactly like the Python chain of
non-exclusive `if`s. -/
def applyOp (op : String) (l r : Val) : Except Err Val :=
  if op = "add" then pyAdd l r
  else if op = "sub" then pySub l r
  else if op = "mul" then pyMul l r
  else if op = "div" then pyDiv l r
  else if op = "eq" then .ok (.bool (pyEq l r))
  else if op = "neq" then .ok (.bool (!pyEq l r))
  else if op = "lt" then (pyLt l r).map .bool
  else if op = "leq" then (pyLe l r).map .bool
  else if op = "gt" then (pyLt r l).map .bool
  else if op = "geq" then (pyLe r l).map .bool
  else .ok l

/-- Rendering of a value by `print` / `str`. The decimal rendering of floats
is abstracted (no claim observes printed output). -/
def pyStr : Val → String
  | .int n => toString n
  | .bool true => "True"
  | .bool false => "False"
  | .str s => s
  | .rat q => toString q.num ++ "e" ++ toString q.den
  | .none => "None"

/-! ## The AST

`parse_line` builds tagged tuples; `treeify` nests them.  `Item` is one
element of the flat `EXPRESSION` list: a `CONSTANT`, a `VARIABLE`, an
`OPERATOR` (whose payload is the operator-name string exactly as the source
stores it) or a `CALL` with its argument expressions. -/

inductive Item where
  | const (v : Val)
  | var (name : String)
  | oper (o : String)
  | call (name : String) (args : List (List Item))
  deriving Repr

/-- An `(TokenType.EXPRESSION, [...])` node: the ordered evalable/operator
sequence. -/
abbrev Expr := List Item

/-- A statement after `treeify`: block headers carry their nested block. The
`turn` variable is `Option` because `parse_line` can return `None` for it
(line 397 of the source). -/
inductive Stmt where
  | assign (v : String) (e : Expr)
  | output (e : Expr)
  | input (v : String)
  | ifS (cond : Expr) (block : List Stmt)
  | loop (isWhile : Bool) (cond : Expr) (block : List Stmt)
  | turn (way : String) (v : Option String)
  | func (name : String) (params : List String) (body : List Stmt)
  | ret (e : Expr)
  | endS
  deriving Repr

/-! ## Environments and the function table -/

/-- Ordered association list behaving like a Python dict: update in place,
insert at the end. -/
def alInsert {α : Type} : List (String × α) → String → α → List (String × α)
  | [], k, v => [(k, v)]
  | (k', v') :: rest, k, v =>
    if k' = k then (k', v) :: rest else (k', v') :: alInsert rest k v

/-- Dict lookup. -/
def alLookup {α : Type} : List (String × α) → String → Option α
  | [], _ => Option.none
  | (k', v') :: rest, k => if k' = k then some v' else alLookup rest k

/-- A registered function definition: its parameter names (the `[1]`
components of the `(VARIABLE, name)` tuples in `func[2]`) and its body
`func[3]`. -/
abbrev FuncDef := List String × List Stmt

/-- The function table dict. -/
abbrev FTable := List (String × FuncDef)

/-- Variable environment dict. -/
abbrev Env := List (String × Val)

/-- Which dict object a frame's `function_table` variable denotes: the
process-wide mutable default argument of `eval_statements`, or a local
`.copy()` made by `eval_function_call`. -/
inductive TblRef where
  | shared
  | localT (t : FTable)

/-- The threaded interpreter state: the current frame's variable dict, the
current frame's `function_table` reference, the shared default-argument
dict, and the stdin/stdout streams. -/
structure S where
  vars : Env
  tbl : TblRef
  shared : FTable
  inp : List String
  out : List String

/-- The dict the current frame's `function_table` variable points at. -/
def resolveTbl (s : S) : FTable :=
  match s.tbl with
  | .shared => s.shared
  | .localT t => t

/-- `function_table[statement[1]] = statement` (line 625): mutate whichever
dict this frame's `function_table` is. -/
def register (s : S) (n : String) (d : FuncDef) : S :=
  match s.tbl with
  | .shared => { s with shared := alInsert s.shared n d }
  | .localT t => { s with tbl := .localT (alInsert t n d) }

/-- `eval_evalable` (lines 549-557): constants evaluate to themselves,
variables to their binding (`ValueError` when unbound, message kept verbatim
including the source's typo), anything else is a `ValueError`. -/
def eval_evalable (it : Item) (s : S) : Except Err Val :=
  match it with
  | .const v => .ok v
  | .var n =>
    match alLookup s.vars n with
    | some v => .ok v
    | Option.none => .error (.valueError ("Variable used before asignment " ++ n))
  | _ => .error (.valueError "Cannot eval of type")

/-! ## The evaluator

One fuel-indexed function covering `eval_statements`, `eval_statement`,
`eval_expression` and `eval_function_call`.  Each `Job` is one of the
Python call frames / loop states; every recursive call spends one unit of
fuel, so the function is structurally recursive and computable by `rfl`. -/

/-- The pending piece of Python evaluator code being run. -/
inductive Job where
  | stmts (l : List Stmt)
  | stmt1 (s : Stmt)
  | expr (e : Expr)
  | exprLoop (left : Val) (rest : List Item)
  | callJ (name : String) (args : List Expr)
  | bindRun (pairs : List (String × Expr)) (acc : Env) (body : List Stmt)

/-- Result of `evalFuel`: `none` = fuel exhausted (the Python code has not
returned after that many steps), `some (.error e)` = host exception `e`,
`some (.ok (s, v))` = normal return with value `v` (`Option.none` when the
Python function returned `None` implicitly). -/
abbrev Res := Option (Except Err (S × Option Val))

/-- Chain one evaluator result into the rest of the computation:
exceptions and fuel exhaustion propagate, a normal return feeds the
continuation.  (This is just Python's sequential control flow.) -/
def resBind (r : Res) (k : S → Option Val → Res) : Res :=
  match r with
  | Option.none => Option.none
  | some (.error er) => some (.error er)
  | some (.ok (s, v)) => k s v

def evalFuel : Nat → Job → S → Res
  | 0, _, _ => Option.none
  | Nat.succ f, j, s =>
    match j with
    -- eval_statements (lines 620-629)
    | .stmts [] => some (.ok (s, Option.none))
    | .stmts (Stmt.func n ps b :: rest) =>
      evalFuel f (.stmts rest) (register s n (ps, b))
    | .stmts (Stmt.ret e :: _) =>
      resBind (evalFuel f (.expr e) s) fun s' v => some (.ok (s', v))
    | .stmts (st :: rest) =>
      resBind (evalFuel f (.stmt1 st) s) fun s' _ => evalFuel f (.stmts rest) s'
    -- eval_statement (lines 515-542)
    | .stmt1 (Stmt.assign x e) =>
      resBind (evalFuel f (.expr e) s) fun s' v =>
        some (.ok ({ s' with vars := alInsert s'.vars x (v.getD .none) }, Option.none))
    | .stmt1 (Stmt.output e) =>
      resBind (evalFuel f (.expr e) s) fun s' v =>
        some (.ok ({ s' with out := s'.out ++ [pyStr (v.getD .none)] }, Option.none))
    | .stmt1 (Stmt.input x) =>
      match s.inp with
      | [] => some (.error .eofError)
      | i :: restI =>
        some (.ok ({ s with inp := restI, vars := alInsert s.vars x (.str i) }, Option.none))
    | .stmt1 (Stmt.ifS c b) =>
      -- the block call `eval_statements(statement[2], variables)` (line 526)
      -- omits function_table, so the block runs on the shared default dict;
      -- its return value is discarded.
      resBind (evalFuel f (.expr c) s) fun s' v =>
        if pyTruthy (v.getD .none) then
          resBind (evalFuel f (.stmts b) { s' with tbl := .shared }) fun s'' _ =>
            some (.ok ({ s'' with tbl := s'.tbl }, Option.none))
        else some (.ok (s', Option.none))
    | .stmt1 (Stmt.loop w c b) =>
      -- `while eval_expression(expr, variables, function_table) == comp:`
      -- with the body run through the default-table call (line 530).
      resBind (evalFuel f (.expr c) s) fun s' v =>
        if pyEq (v.getD .none) (.bool w) then
          resBind (evalFuel f (.stmts b) { s' with tbl := .shared }) fun s'' _ =>
            evalFuel f (.stmt1 (Stmt.loop w c b)) { s'' with tbl := s'.tbl }
        else some (.ok (s', Option.none))
    | .stmt1 (Stmt.turn way v?) =>
      match v? with
      | Option.none => some (.error .typeError)  -- unpacking None raises
      | some x =>
        match alLookup s.vars x with
        | Option.none =>
          some (.error (.valueError ("Variable used before asignment " ++ x)))
        | some val =>
          match ratVal val with
          | Option.none => some (.error .typeError)  -- val ± 0.5 on a non-number
          | some q =>
            let q' := if way = "up" then pfAdd q ⟨1, 2⟩ else pfSub q ⟨1, 2⟩
            some (.ok ({ s with vars := alInsert s.vars x (.int (pyRound q')) }, Option.none))
    -- eval_statement's final else (lines 540-542): FUNCTION / RETURN / END
    -- reaching it raise ValueError("Invalid statement").
    | .stmt1 (Stmt.func _ _ _) => some (.error (.valueError "Invalid statement"))
    | .stmt1 (Stmt.ret _) => some (.error (.valueError "Invalid statement"))
    | .stmt1 Stmt.endS => some (.error (.valueError "Invalid statement"))
    -- eval_expression (lines 570-612)
    | .expr e =>
      match e with
      | [] => some (.error .indexError)  -- expr[0] on an empty expression
      | first :: rest =>
        match first with
        | .call n args =>
          resBind (evalFuel f (.callJ n args) s) fun s' v =>
            evalFuel f (.exprLoop (v.getD .none) rest) s'
        | _ =>
          match eval_evalable first s with
          | .error er => some (.error er)
          | .ok v => evalFuel f (.exprLoop v rest) s
    | .exprLoop left [] => some (.ok (s, some left))
    | .exprLoop left (o :: rest) =>
      match rest with
      | [] => some (.error .indexError)  -- expr[0] after popping the operator
      | operand :: rest' =>
        -- the right operand is computed before the operator assert, as in
        -- the source (lines 585-591).
        resBind
          (match operand with
           | .call n args => evalFuel f (.callJ n args) s
           | _ =>
             match eval_evalable operand s with
             | .error er => some (.error er)
             | .ok v => some (.ok (s, some v)))
          fun s' rv =>
            match o with
            | .oper opName =>
              match applyOp opName left (rv.getD .none) with
              | .error er => some (.error er)
              | .ok newLeft => evalFuel f (.exprLoop newLeft rest') s'
            | _ => some (.error .assertionError)
    -- eval_function_call (lines 560-567)
    | .callJ n args =>
      match alLookup (resolveTbl s) n with
      | Option.none =>
        some (.error (.valueError ("Cannot find function of name " ++ n)))
      | some (ps, body) => evalFuel f (.bindRun (ps.zip args) [] body) s
    | .bindRun [] acc body =>
      -- all arguments evaluated: run the body on a brand-new local dict and
      -- a .copy() of this frame's function_table, then restore the caller.
      resBind (evalFuel f (.stmts body) { s with vars := acc, tbl := .localT (resolveTbl s) })
        fun s' r => some (.ok ({ s' with vars := s.vars, tbl := s.tbl }, some (r.getD .none)))
    | .bindRun ((p, a) :: restP) acc body =>
      resBind (evalFuel f (.expr a) s) fun s' v =>
        evalFuel f (.bindRun restP (alInsert acc p (v.getD .none)) body) s'

/-- `eval_statements(statements, variables, function_table)` with an explicit
fuel bound. -/
def eval_statements (fuel : Nat) (l : List Stmt) (s : S) : Res :=
  evalFuel fuel (.stmts l) s

/-- `eval_expression` with an explicit fuel bound. -/
def eval_expression (fuel : Nat) (e : Expr) (s : S) : Res :=
  evalFuel fuel (.expr e) s

/-- `eval_function_call` with an explicit fuel bound. -/
def eval_function_call (fuel : Nat) (n : String) (args : List Expr) (s : S) : Res :=
  evalFuel fuel (.callJ n args) s

/-- `run_program(ast)` (lines 632-636): fresh `variables = {}`, then
`eval_statements(ast, variables)` — the omitted `function_table` argument is
the shared default dict carried by the ambient process state `s`. -/
def run_program (fuel : Nat) (ast : List Stmt) (s : S) : Res :=
  evalFuel fuel (.stmts ast) { s with vars := [], tbl := .shared }

/-- The process state at interpreter start-up: empty default function table,
given stdin, empty stdout. -/
def procStart (inp : List String) : S :=
  { vars := [], tbl := .shared, shared := [], inp := inp, out := [] }

end Mercury

namespace Mercury

/-! ## The parser

Translation of lines 50-509 of the source.  Only `try_parse_expression`
(which contains a `while` loop that does not always terminate) and the
loops built on top of it take fuel; everything else is structural. -/

/-- Parse errors: `RockstarSyntaxError` with its message, or the host
exceptions `IndexError` (unguarded `tokens[i]`) and `ValueError`
(`list.index` on a missing element); only the first kind is caught by
`parse_source`'s per-line recovery. -/
inductive PErr where
  | rockstar (msg : String)
  | indexError
  | hostValueError
  deriving DecidableEq, Repr

/-- The process-wide `last_parsed_variable` parser state (line 69). -/
abbrev PSt := Option String

/-- A statement as `parse_line` returns it, before `treeify` attaches the
blocks to the `If` / `Until` / `While` / function headers. -/
inductive FlatStmt where
  | assign (v : String) (e : Expr)
  | output (e : Expr)
  | input (v : String)
  | ifHead (cond : Expr)
  | loopHead (isWhile : Bool) (cond : Expr)
  | turn (way : String) (v : Option String)
  | funcHead (name : String) (params : List String)
  | ret (e : Expr)
  | endS
  deriving Repr


/-- Python `str.islower` restricted to the ASCII tokens this program sees:
at least one cased character and no uppercase one. -/
def py_islower (s : String) : Bool :=
  s.data.any Char.isAlpha && s.data.all (fun c => !c.isAlpha || c.isLower)

/-- `is_simple_variable` (lines 50-54). -/
def is_simple_variable (t : String) : Bool :=
  t ≠ "" && py_islower t

/-- Helper for `py_istitle`: walks the characters carrying whether the
previous character was cased and whether any cased character was seen. -/
def py_istitle_go : Bool → Bool → List Char → Bool
  | _, seen, [] => seen
  | prevCased, seen, c :: rest =>
    if c.isUpper then
      if prevCased then false else py_istitle_go true true rest
    else if c.isLower then
      if prevCased then py_istitle_go true true rest else false
    else py_istitle_go false seen rest

/-- Python `str.istitle` (ASCII): uppercase only at word starts, lowercase
only after cased characters, at least one cased character. -/
def py_istitle (s : String) : Bool := py_istitle_go false false s.data

/-- `is_proper_variable` (lines 57-59). -/
def is_proper_variable (t : String) : Bool := py_istitle t

/-- `is_pronoun` (lines 62-66). -/
def is_pronoun (t : String) : Bool :=
  py_lower t ∈ ["it", "he", "she", "him", "her", "they",
               "them", "ze", "hir", "zie", "zir", "xe",
               "xem", "ve", "ver"]

/-- `try_parse_variable_name` (lines 69-102) as a pure function of the
`last_parsed_variable` state: returns the canonical lowercase name (or
`none` for no match), the remaining tokens, and the updated state.  The
pronoun-with-no-previous-variable branch eats the pronoun token yet reports
no match, exactly as the source does. -/
def try_parse_variable_name (st : PSt) (tokens : List String) :
    Option String × List String × PSt :=
  match tokens with
  | [] => (Option.none, [], st)
  | t0 :: rest =>
    if is_pronoun t0 then
      match st with
      | Option.none => (Option.none, rest, st)
      | some v => (some (py_lower v), rest, some (py_lower v))
    else if t0 ∈ ["a", "an", "the", "my", "your"] then
      match rest with
      | t1 :: rest' =>
        if is_simple_variable t1 then
          let nm := py_lower (t0 ++ "#" ++ t1)
          (some nm, rest', some nm)
        else (Option.none, tokens, st)
      | [] => (Option.none, tokens, st)
    else if is_proper_variable t0 then
      let nm := py_lower (String.intercalate "_" (tokens.takeWhile is_proper_variable))
      (some nm, tokens.dropWhile is_proper_variable, some nm)
    else if is_simple_variable t0 then
      (some (py_lower t0), rest, some (py_lower t0))
    else (Option.none, tokens, st)

/-- The per-token digit of `parse_poetic_number_literals`: the count of
characters that are letters **or hyphens**, modulo 10 (line 117). -/
def letterHyphenCount (t : String) : Nat :=
  (t.data.filter (fun c => c.isAlpha || c = '-')).length

/-- First loop of `parse_poetic_number_literals` (lines 112-119): fold the
digits most-significant-first, stopping after a token that contains `.`. -/
def poeticInt : Nat → List String → Nat × List String
  | num, [] => (num, [])
  | num, t :: rest =>
    let num' := num * 10 + letterHyphenCount t % 10
    if t.data.contains '.' then (num', rest) else poeticInt num' rest

/-- Second loop (lines 121-128): every remaining token is one decimal place. -/
def poeticFrac : Nat → Nat → List String → Nat × Nat
  | dec, pts, [] => (dec, pts)
  | dec, pts, t :: rest => poeticFrac (dec * 10 + letterHyphenCount t % 10) (pts + 1) rest

/-- `parse_poetic_number_literals` (lines 110-130); an `int` when no `.`
token appeared, a float (`num + decimal * 10 ** -points`) otherwise. -/
def parse_poetic_number_literals (tokens : List String) : Val :=
  let p := poeticInt 0 tokens
  let q := poeticFrac 0 0 p.2
  if q.2 = 0 then .int p.1
  else .rat ⟨(p.1 : Int) * ((10 ^ q.2 : Nat) : Int) + (q.1 : Int), ((10 ^ q.2 : Nat) : Int)⟩

/-- `try_parse_string_literal` (lines 133-137).  The source tests
`startswith('"')` twice (no `endswith`), so only the opening quote is
required. -/
def try_parse_string_literal (tokens : List String) : Option Item × List String :=
  match tokens with
  | [] => (Option.none, tokens)
  | t0 :: rest =>
    if py_startswith t0 "\"" then (some (.const (.str t0)), rest)
    else (Option.none, tokens)

/-- One run of digits possibly separated by single underscores, as Python
`int()` accepts after the first digit. -/
def underscore_digits : List Char → Bool
  | [] => true
  | '_' :: c :: rest => c.isDigit && underscore_digits rest
  | '_' :: [] => false
  | c :: rest => c.isDigit && underscore_digits rest

/-- Digits (underscores ignored) to a number. -/
def digitsVal (l : List Char) : Int :=
  (l.filter (· ≠ '_')).foldl (fun a c => a * 10 + ((c.toNat : Int) - ('0'.toNat : Int))) 0

/-- A Python whitespace character (the ASCII ones). -/
def pyIsSpace (c : Char) : Bool :=
  c = ' ' || c = '\t' || c = '\n' || c = '\r' || c = '\x0b' || c = '\x0c'

/-- Python `str.strip` on a character list. -/
def pyStripList (l : List Char) : List Char :=
  ((l.dropWhile pyIsSpace).reverse.dropWhile pyIsSpace).reverse

/-- Python `str.strip`. -/
def py_strip (s : String) : String := ⟨pyStripList s.data⟩

/-- Python `int(s)` for base 10: optional surrounding whitespace, optional
sign, digits with optional single underscores between them. -/
def py_int (s : String) : Option Int :=
  let body : List Char → Option Int := fun l =>
    match l with
    | [] => Option.none
    | c :: rest =>
      if c.isDigit && underscore_digits rest then some (digitsVal (c :: rest))
      else Option.none
  match pyStripList s.data with
  | '+' :: rest => body rest
  | '-' :: rest => (body rest).map (fun n => -n)
  | l => body l

/-- `try_parse_numeric_constant` (lines 140-153).  The `[]` case is
unreachable from the source's call site (Python would raise on
`tokens[0]`); it reports no match here. -/
def try_parse_numeric_constant (tokens : List String) : Option Item × List String :=
  match tokens with
  | [] => (Option.none, tokens)
  | t0 :: rest =>
    if t0 ∈ ["null", "nothing", "nowhere", "nobody", "empty", "gone"] then
      (some (.const (.int 0)), rest)
    else if t0 ∈ ["true", "right", "yes", "ok", "truth"] then
      (some (.const (.bool true)), rest)
    else if t0 ∈ ["false", "wrong", "no", "lies"] then
      (some (.const (.bool false)), rest)
    else
      match py_int t0 with
      | some n => (some (.const (.int n)), rest)
      | Option.none => (Option.none, tokens)

/-- `try_parse_operator` (lines 156-189), with the source's exact
length guards on the comparison phrases. -/
def try_parse_operator (tokens : List String) : Option Item × List String :=
  match tokens with
  | [] => (Option.none, tokens)
  | token :: rest =>
    if token ∈ ["plus", "with"] then (some (.oper "add"), rest)
    else if token ∈ ["minus", "without"] then (some (.oper "sub"), rest)
    else if token ∈ ["times", "of"] then (some (.oper "mul"), rest)
    else if token ∈ ["over"] then (some (.oper "div"), rest)
    else if token = "is" then
      -- `len(tokens) > 2` guard, `tokens[1] == "not"`
      let neqCase : Option (Option Item × List String) :=
        match rest with
        | t1 :: _ :: _ => if t1 = "not" then some (some (.oper "neq"), rest.drop 1) else Option.none
        | _ => Option.none
      -- `len(tokens) > 3` guard, `tokens[2] in ["then", "than"]`
      let cmpCase : Option (Option Item × List String) :=
        match rest with
        | t1 :: t2 :: _ :: _ =>
          if t2 ∈ ["then", "than"] then
            if t1 ∈ ["higher", "greater", "bigger", "stronger"] then
              some (some (.oper "gt"), rest.drop 2)
            else if t1 ∈ ["lower", "less", "smaller", "weaker"] then
              some (some (.oper "lt"), rest.drop 2)
            else Option.none
          else Option.none
        | _ => Option.none
      -- `len(tokens) > 4` guard, `tokens[1] == "as" and tokens[3] == "as"`
      let asCase : Option (Option Item × List String) :=
        match rest with
        | t1 :: t2 :: t3 :: _ :: _ =>
          if t1 = "as" && t3 = "as" then
            if t2 ∈ ["high", "great", "big", "strong"] then
              some (some (.oper "geq"), rest.drop 3)
            else if t2 ∈ ["low", "little", "small", "weak"] then
              some (some (.oper "leq"), rest.drop 3)
            else Option.none
          else Option.none
        | _ => Option.none
      match neqCase with
      | some r => r
      | Option.none =>
        match cmpCase with
        | some r => r
        | Option.none =>
          match asCase with
          | some r => r
          | Option.none => (some (.oper "eq"), rest)
    else if token = "isnt" then (some (.oper "neq"), rest)
    else if token = "aint" then (some (.oper "neq"), rest)
    else (Option.none, tokens)

/-- The argument-chunk builder inside `try_parse_expression`
(lines 202-210): collect tokens into a chunk up to a `,`/`and`/`n`
separator, consuming the separator and one directly following `and`. -/
def takeChunk : List String → List String × List String
  | [] => ([], [])
  | t :: rest =>
    if t ∈ [",", "and", "n"] then
      match rest with
      | "and" :: rest' => ([], rest')
      | _ => ([], rest)
    else
      let p := takeChunk rest
      (t :: p.1, p.2)

/-- The job of the fuelled expression-parser engine: either the
`while tokens:` loop of `try_parse_expression` itself (lines 192-233)
carrying the accumulated expression, or the argument loop of its `taking`
branch (lines 200-213) carrying the accumulated argument list. -/
inductive TpeJob where
  | loopJ (acc : List Item) (tokens : List String)
  | argsJ (acc : List (List Item)) (tokens : List String)

/-- Result of one engine job: the `loopJ` jobs produce
`(expression items, leftover tokens)`, the `argsJ` jobs
`(argument list, [])`. -/
abbrev TpeRes := Option ((List Item ⊕ List (List Item)) × List String × PSt)

/-- The fuelled engine behind `try_parse_expression`.  `none` means the
fuel ran out: when a token matches none of the sub-parsers, the Python
loop body falls through without consuming anything and never terminates.
On sub-parser failure the loop continues with whatever tokens
`try_parse_variable_name` returned (unchanged, except that a pronoun with
no previous variable was eaten). -/
def tpeGo : Nat → PSt → TpeJob → TpeRes
  | _, st, .loopJ acc [] => some (.inl acc, [], st)
  | _, st, .argsJ acc [] => some (.inr acc, [], st)
  | 0, _, _ => Option.none
  | Nat.succ f, st, .loopJ acc (t0 :: rest) =>
    if rest.head? = some "taking" then
      match tpeGo f st (.argsJ [] (rest.drop 1)) with
      | some (.inr args, _, st') => tpeGo f st' (.loopJ (acc ++ [.call t0 args]) [])
      | _ => Option.none
    else
      match try_parse_operator (t0 :: rest) with
      | (some op, rest') => tpeGo f st (.loopJ (acc ++ [op]) rest')
      | (Option.none, _) =>
        match try_parse_string_literal (t0 :: rest) with
        | (some lit, rest') => tpeGo f st (.loopJ (acc ++ [lit]) rest')
        | (Option.none, _) =>
          match try_parse_numeric_constant (t0 :: rest) with
          | (some num, rest') => tpeGo f st (.loopJ (acc ++ [num]) rest')
          | (Option.none, _) =>
            match try_parse_variable_name st (t0 :: rest) with
            | (some nm, rest', st') => tpeGo f st' (.loopJ (acc ++ [.var nm]) rest')
            | (Option.none, rest', st') => tpeGo f st' (.loopJ acc rest')
  | Nat.succ f, st, .argsJ acc tokens =>
    let p := takeChunk tokens
    match tpeGo f st (.loopJ [] p.1) with
    | some (.inl items, _, st') =>
      tpeGo f st' (.argsJ (if items.isEmpty then acc else acc ++ [items]) p.2)
    | _ => Option.none

/-- `try_parse_expression` (lines 192-233): always yields an
`(EXPRESSION, ...)` pair when it terminates; `none` = the loop diverged. -/
def try_parse_expression (fuel : Nat) (st : PSt) (tokens : List String) :
    Option (Expr × List String × PSt) :=
  match tpeGo fuel st (.loopJ [] tokens) with
  | some (.inl items, leftover, st') => some (items, leftover, st')
  | _ => Option.none

end Mercury

namespace Mercury

/-! ## tokenize (lines 257-293) -/

/-- The tokenizer's scan state. -/
inductive TkState where
  | normal
  | inString
  | inComment

/-- The left-to-right scan of `tokenize`, carrying the pending buffer (the
text since `last_token_start`).  In `NORMAL`, whitespace / `,` / `(` / `"`
flush the stripped pending text; the opening quote stays in the buffer; a
closing quote flushes the quoted chunk unstripped; comment text is dropped
on `)`.  At the end of input the remaining buffer is flushed (stripped)
regardless of state — this is the source's unconditional final
`tokens.append(source[last_token_start:].strip())`. -/
def tokenizeGo : TkState → List Char → List Char → List String → List String
  | _, buf, [], acc => acc ++ [py_strip ⟨buf⟩]
  | .normal, buf, c :: rest, acc =>
    if pyIsSpace c then tokenizeGo .normal [] rest (acc ++ [py_strip ⟨buf⟩])
    else if c = ',' then tokenizeGo .normal [] rest (acc ++ [py_strip ⟨buf⟩, ","])
    else if c = '(' then tokenizeGo .inComment [] rest (acc ++ [py_strip ⟨buf⟩])
    else if c = '"' then tokenizeGo .inString [c] rest (acc ++ [py_strip ⟨buf⟩])
    else tokenizeGo .normal (buf ++ [c]) rest acc
  | .inString, buf, c :: rest, acc =>
    if c = '"' then tokenizeGo .normal [] rest (acc ++ [⟨buf ++ [c]⟩])
    else tokenizeGo .inString (buf ++ [c]) rest acc
  | .inComment, buf, c :: rest, acc =>
    if c = ')' then tokenizeGo .normal [] rest acc
    else tokenizeGo .inComment (buf ++ [c]) rest acc

/-- `tokenize` (lines 257-293): scan, then `filter(lambda x: x, tokens)`
drops the empty strings. -/
def tokenize (source : String) : List String :=
  (tokenizeGo .normal [] source.data []).filter (· ≠ "")

/-! ## parse_line (lines 300-450) -/

/-- `source.replace("'s ", " is ")`: left-to-right, non-overlapping. -/
def replace_apostrophe_s : List Char → List Char
  | '\'' :: 's' :: ' ' :: rest => ' ' :: 'i' :: 's' :: ' ' :: replace_apostrophe_s rest
  | c :: rest => c :: replace_apostrophe_s rest
  | [] => []

/-- First index of a value in a list (`list.index`), if present. -/
def listIndexOf (l : List String) (x : String) : Option Nat :=
  match l with
  | [] => Option.none
  | t :: rest =>
    if t = x then some 0 else (listIndexOf rest x).map Nat.succ

/-- The prefix of `s` before the first occurrence of `pat` (all of `s`
when `pat` never occurs): the second field of Python's `s.split(pat)`. -/
def listTakeUntil : List Char → List Char → List Char
  | [], _ => []
  | l@(c :: rest), pat =>
    if pat.isPrefixOf l then []
    else c :: listTakeUntil rest pat

/-- The part of `s` strictly between the first and second occurrences of
`pat` (`s.split(pat)[1]`); `none` when `pat` does not occur (Python would
raise `IndexError` on the `[1]`). -/
def listSplitAfter : List Char → List Char → Option (List Char)
  | [], _ => Option.none
  | l@(_ :: rest), pat =>
    if pat.isPrefixOf l then some (listTakeUntil (l.drop pat.length) pat)
    else listSplitAfter rest pat

/-- The function-definition argument-list loop (lines 410-421). -/
def funcArgs : Nat → PSt → String → List String → List String →
    Option (Except PErr (FlatStmt × PSt))
  | _, st, name, args, [] => some (.ok (.funcHead name args, st))
  | 0, _, _, _, _ => Option.none
  | Nat.succ f, st, name, args, tokens =>
    match try_parse_variable_name st tokens with
    | (Option.none, _, _) => some (.error (.rockstar "Failed to read argument list."))
    | (some v, tokens2, st') =>
      let args' := args ++ [v]
      match tokens2 with
      | [] => funcArgs f st' name args' []
      | t :: rest =>
        if t ∈ [",", "and", "n"] then
          match rest with
          | "and" :: rest' => funcArgs f st' name args' rest'
          | _ => funcArgs f st' name args' rest
        else some (.error (.rockstar ("Invalid syntax for function " ++ name)))

/-- The statement dispatch of `parse_line` on the already-tokenized line
(lines 323-450).  `source` is the raw line, used only by the poetic
string-literal branch.  Branches are tried in the source's order; a branch
that indexes past the end of the token list yields the host `IndexError`,
which `parse_source` does not catch. -/
def parse_line_tokens (fuel : Nat) (st : PSt) (source : String)
    (tokens : List String) : Option (Except PErr (FlatStmt × PSt)) :=
  match tokens with
  | [] => some (.ok (.endS, st))
  | t0 :: rest =>
    -- try_parse_output (lines 236-244); its expression is never None, so
    -- the "Expected expression after output command" raise is unreachable.
    if py_lower t0 ∈ ["say", "shout", "whisper", "scream"] then
      match try_parse_expression fuel st rest with
      | Option.none => Option.none
      | some (e, leftover, st') =>
        if leftover.isEmpty then some (.ok (.output e, st'))
        else some (.error (.rockstar "Unexpected tokens at end of line"))
    -- try_parse_input (lines 247-254)
    else if tokens.length > 2 && py_lower t0 = "listen" && rest.head? = some "to" then
      match try_parse_variable_name st (rest.drop 1) with
      | (some nm, leftover, st') =>
        if leftover.isEmpty then some (.ok (.input nm, st'))
        else some (.error (.rockstar "Unexpected tokens at end of line"))
      | (Option.none, _, _) =>
        some (.error (.rockstar "Expected variable after output command"))
    -- Put EXPR into VAR (lines 337-352); `tokens.index("into")` raises
    -- ValueError when "into" is absent.
    else if t0 = "Put" then
      match listIndexOf rest "into" with
      | Option.none => some (.error .hostValueError)
      | some idx =>
        match try_parse_expression fuel st (rest.take idx) with
        | Option.none => Option.none
        | some (e, _, st') =>
          let tokens2 := rest.drop idx
          if tokens2.head? ≠ some "into" then
            some (.error (.rockstar "Expected \"into\" after variable in assignment."))
          else
            match try_parse_variable_name st' (tokens2.drop 1) with
            | (some nm, leftover, st'') =>
              if leftover.isEmpty then some (.ok (.assign nm e, st''))
              else some (.error (.rockstar "Unexpected tokens at end of line"))
            | (Option.none, _, _) =>
              some (.error (.rockstar "Expected variable in assignment."))
    -- Let VAR be EXPR (lines 354-368); `tokens[0]` after the variable is
    -- unguarded.
    else if t0 = "Let" then
      match try_parse_variable_name st rest with
      | (Option.none, _, _) => some (.error (.rockstar "Expected variable in assignment."))
      | (some nm, tokens2, st') =>
        match tokens2 with
        | [] => some (.error .indexError)
        | t :: tokens3 =>
          if t ∈ ["be", "is", "are", "were", "was"] then
            match try_parse_expression fuel st' tokens3 with
            | Option.none => Option.none
            | some (e, leftover, st'') =>
              if leftover.isEmpty then some (.ok (.assign nm e, st''))
              else some (.error (.rockstar "Unexpected tokens at end of line"))
          else some (.error (.rockstar "Expected \"into\" after variable in assignment."))
    -- If EXPR (lines 370-375): no leftover check.
    else if t0 = "If" then
      match try_parse_expression fuel st rest with
      | Option.none => Option.none
      | some (e, _, st') => some (.ok (.ifHead e, st'))
    -- Until EXPR / While EXPR (lines 377-389)
    else if t0 = "Until" then
      match try_parse_expression fuel st rest with
      | Option.none => Option.none
      | some (e, _, st') => some (.ok (.loopHead false e, st'))
    else if t0 = "While" then
      match try_parse_expression fuel st rest with
      | Option.none => Option.none
      | some (e, _, st') => some (.ok (.loopHead true e, st'))
    -- Turn (lines 391-404); `tokens[0]` is unguarded in both positions.
    else if t0 = "Turn" then
      match rest with
      | [] => some (.error .indexError)
      | t :: rest2 =>
        if t ∈ ["down", "up"] then
          match try_parse_variable_name st rest2 with
          | (v, leftover, st') =>
            if leftover.isEmpty then some (.ok (.turn t v, st'))
            else some (.error (.rockstar "Unexpected tokens at end of line"))
        else
          match try_parse_variable_name st rest with
          | (v, tokens2, st') =>
            match tokens2 with
            | [] => some (.error .indexError)
            | way :: tokens3 =>
              if way ∈ ["down", "up"] then
                if tokens3.isEmpty then some (.ok (.turn way v, st'))
                else some (.error (.rockstar "Unexpected tokens at end of line"))
              else
                some (.error (.rockstar "Expected \"up\" or \"down\" for turn statement."))
    else
      -- `if tokens[1] == "takes"` (line 406) is reached with no guard on
      -- the length of the token list: one-token lines raise IndexError.
      match rest with
      | [] => some (.error .indexError)
      | t1 :: rest2 =>
        if t1 = "takes" then funcArgs fuel st t0 [] rest2
        -- Give back EXPR (lines 424-431)
        else if t0 = "Give" then
          if t1 ≠ "back" then some (.error (.rockstar "Invalid \"Give back\" statement"))
          else
            match try_parse_expression fuel st rest2 with
            | Option.none => Option.none
            | some (e, _, st') => some (.ok (.ret e, st'))
        else
          -- poetic fallback (lines 433-450); `tokens[0]` after the parsed
          -- variable is unguarded.
          match try_parse_variable_name st tokens with
          | (some nm, tokens2, st') =>
            match tokens2 with
            | [] => some (.error .indexError)
            | t :: tokens3 =>
              if t ∈ ["be", "is", "are", "were", "was"] then
                some (.ok (.assign nm [.const (parse_poetic_number_literals tokens3)], st'))
              else if t ∈ ["says", "shouts", "screams", "wispers"] then
                match listSplitAfter source.data t.data with
                | Option.none => some (.error .indexError)
                | some after => some (.ok (.assign nm [.const (.str (String.drop ⟨after⟩ 1))], st'))
              else some (.error (.rockstar "Cannot parse line"))
          | (Option.none, _, _) => some (.error (.rockstar "Cannot parse line"))

/-- `parse_line` (lines 300-450): the lowercase-first-character check, the
comment strip, the `'s `→` is ` rewrite and apostrophe removal, then
tokenize and dispatch. -/
def parse_line (fuel : Nat) (st : PSt) (source : String) :
    Option (Except PErr (FlatStmt × PSt)) :=
  let cs := source.data
  if (cs.head?.map Char.isLower).getD false then
    some (.error (.rockstar "Line doesn't start with capital letter"))
  else
    let commentStripped : Except PErr (List Char) :=
      if cs.contains '(' || cs.contains ')' then
        if cs.contains '(' && cs.contains ')' then
          let start := cs.indexOf '('
          let stop := cs.indexOf ')'
          if start < stop then .ok (cs.take start ++ cs.drop (stop + 1))
          else .error (.rockstar "Invalid comment")
        else .error (.rockstar "Invalid comment")
      else .ok cs
    match commentStripped with
    | .error e => some (.error e)
    | .ok cs1 =>
      let cs2 := (replace_apostrophe_s cs1).filter (· ≠ '\'')
      parse_line_tokens fuel st source (tokenize ⟨cs2⟩)

/-! ## treeify (lines 453-481) and parse_source (lines 484-509) -/

end Mercury

namespace Mercury

/-- `treeify` (lines 453-481): consume the flat statement stream, closing
the current block at `END` (dropped) or, inside a function, at `RETURN`
(kept); `If` / `Until` / `While` headers attach the block produced by a
recursive pass run with `in_func` at its default `False` (the source does
not propagate the flag there, line 467/472), function headers with the
flag set.  A `RETURN` outside a function raises.  Fuelled because the
outer `while` continues on the remainder returned by recursive calls. -/
def treeify (fuel : Nat) (stmts : List FlatStmt) (inFunc : Bool) :
    Option (Except PErr (List Stmt × List FlatStmt)) :=
  match fuel with
  | 0 => Option.none
  | Nat.succ f =>
    match stmts with
    | [] => some (.ok ([], []))
    | first :: rest =>
      match first with
      | .endS => some (.ok ([], rest))
      | .ret e =>
        if inFunc then some (.ok ([Stmt.ret e], rest))
        else some (.error (.rockstar "\"Give back\" statement has to be in function"))
      | .ifHead e =>
        match treeify f rest false with
        | Option.none => Option.none
        | some (.error er) => some (.error er)
        | some (.ok (block, rem)) =>
          match treeify f rem inFunc with
          | Option.none => Option.none
          | some (.error er) => some (.error er)
          | some (.ok (ast, rem')) => some (.ok (Stmt.ifS e block :: ast, rem'))
      | .loopHead w e =>
        match treeify f rest false with
        | Option.none => Option.none
        | some (.error er) => some (.error er)
        | some (.ok (block, rem)) =>
          match treeify f rem inFunc with
          | Option.none => Option.none
          | some (.error er) => some (.error er)
          | some (.ok (ast, rem')) => some (.ok (Stmt.loop w e block :: ast, rem'))
      | .funcHead n ps =>
        match treeify f rest true with
        | Option.none => Option.none
        | some (.error er) => some (.error er)
        | some (.ok (block, rem)) =>
          match treeify f rem inFunc with
          | Option.none => Option.none
          | some (.error er) => some (.error er)
          | some (.ok (ast, rem')) => some (.ok (Stmt.func n ps block :: ast, rem'))
      | .assign v e =>
        match treeify f rest inFunc with
        | Option.none => Option.none
        | some (.error er) => some (.error er)
        | some (.ok (ast, rem')) => some (.ok (Stmt.assign v e :: ast, rem'))
      | .output e =>
        match treeify f rest inFunc with
        | Option.none => Option.none
        | some (.error er) => some (.error er)
        | some (.ok (ast, rem')) => some (.ok (Stmt.output e :: ast, rem'))
      | .input v =>
        match treeify f rest inFunc with
        | Option.none => Option.none
        | some (.error er) => some (.error er)
        | some (.ok (ast, rem')) => some (.ok (Stmt.input v :: ast, rem'))
      | .turn w v =>
        match treeify f rest inFunc with
        | Option.none => Option.none
        | some (.error er) => some (.error er)
        | some (.ok (ast, rem')) => some (.ok (Stmt.turn w v :: ast, rem'))

/-- The outcome of a whole-file parse: either the run is marked failed
(`parse_source` returned `(None, False)`) carrying the per-line
diagnostics it printed, or the finished tree. -/
inductive ParseOutcome where
  | failed (diags : List String)
  | parsed (ast : List Stmt)
  deriving Repr

/-- Python `source.split("\n")`. -/
def splitLines (l : List Char) : List (List Char) :=
  match l with
  | [] => [[]]
  | c :: rest =>
    if c = '\n' then [] :: splitLines rest
    else
      match splitLines rest with
      | [] => [[c]]
      | x :: xs => (c :: x) :: xs

/-- The per-line loop of `parse_source` (lines 488-496): every parsed
statement is appended (the walrus test is always truthy on a nonempty
tuple), a `RockstarSyntaxError` is printed and flips `success`, and any
other exception propagates.  Abstraction: in Python the global
`last_parsed_variable` keeps whatever updates a line made before raising,
whereas this model resumes a failed line with the pre-line state `st`;
no judged theorem exercises a failed line followed by a pronoun. -/
def parseLinesGo (fuel : Nat) : PSt → List String → List FlatStmt →
    List String → Bool → Option (Except PErr (List FlatStmt × List String × Bool × PSt))
  | st, [], acc, diags, success => some (.ok (acc, diags, success, st))
  | st, line :: rest, acc, diags, success =>
    match parse_line fuel st line with
    | Option.none => Option.none
    | some (.error (.rockstar m)) => parseLinesGo fuel st rest acc (diags ++ [m]) false
    | some (.error e) => some (.error e)
    | some (.ok (stm, st')) => parseLinesGo fuel st' rest (acc ++ [stm]) diags success

/-- The `while left:` restructuring loop at the end of `parse_source`
(lines 500-505); `treeify` errors here are *not* caught by anything. -/
def treeifyAll : Nat → List FlatStmt → List Stmt → Option (Except PErr (List Stmt))
  | _, [], ast => some (.ok ast)
  | 0, _, _ => Option.none
  | Nat.succ f, left, ast =>
    match treeify (Nat.succ f) left false with
    | Option.none => Option.none
    | some (.error er) => some (.error er)
    | some (.ok (stmt, left')) => treeifyAll f left' (ast ++ stmt)

/-- `parse_source` (lines 484-509).  The per-line loop recovers only from
`RockstarSyntaxError`; if any line failed the function returns
`(None, False)` (modelled as `.failed diags`) and never reaches `treeify`;
otherwise the restructuring loop runs outside any handler, so an exception
raised there (for example by a `Give back` at top level) escapes
`parse_source` entirely as `.error`. -/
def parse_source (fuel : Nat) (source : String) : Option (Except PErr ParseOutcome) :=
  match parseLinesGo fuel Option.none ((splitLines source.data).map (⟨·⟩)) [] [] true with
  | Option.none => Option.none
  | some (.error e) => some (.error e)
  | some (.ok (flat, diags, success, _)) =>
    if success then
      match treeifyAll fuel flat [] with
      | Option.none => Option.none
      | some (.error er) => some (.error er)
      | some (.ok ast) => some (.ok (.parsed ast))
    else some (.ok (.failed diags))

end Mercury

namespace Mercury

/-! ## Definitions used by the claim theorems -/

/-- `eval_statement` with an explicit fuel bound. -/
def eval_statement (fuel : Nat) (st : Stmt) (s : S) : Res :=
  evalFuel fuel (.stmt1 st) s

/-- A process state whose only variable is `x ↦ n`. -/
def xSt (n : Int) : S :=
  { vars := [("x", .int n)], tbl := .shared, shared := [], inp := [], out := [] }

/-- The parsed form of `Until X is 0` over the body `Turn down X`. -/
def untilZeroLoop : Stmt :=
  .loop false [.var "x", .oper "eq", .const (.int 0)] [.turn "down" (some "x")]

/-- The C4 program: `X` initialised to the integer `5`, then the loop. -/
def countdownProg : List Stmt :=
  [.assign "x" [.const (.int 5)], untilZeroLoop]

/-- C2's counterexample program: `f`'s body registers `g` (into the body's
copied table) and then calls `g` from inside an `If` block. -/
def innerDefProg : List Stmt :=
  [ .func "f" [] [ .func "g" [] [.ret [.const (.int 1)]],
                   .ifS [.const (.bool true)] [.assign "y" [.call "g" []]] ],
    .assign "r" [.call "f" []] ]

/-- C2's positive program: a top-level definition, then a call to it from
inside a `Loop` block and from inside an `If` block. -/
def topLevelBlockCallProg (k : Int) : List Stmt :=
  [ .func "f" [] [.ret [.const (.int k)]],
    .assign "done" [.const (.bool false)],
    .loop false [.var "done", .oper "eq", .const (.bool true)]
      [.assign "r" [.call "f" []], .assign "done" [.const (.bool true)]],
    .ifS [.const (.bool true)] [.assign "s" [.call "f" []]] ]

/-- C3's counterexample program: `g` is defined while `f`'s body runs; the
caller then calls `g`. -/
def bodyDefProg : List Stmt :=
  [ .func "f" [] [.func "g" [] [.ret [.const (.int 1)]]],
    .assign "a" [.call "f" []],
    .assign "b" [.call "g" []] ]

/-- C3: two parameters bound in declared order, the first argument read
from the caller's environment. -/
def subCallProg (v w : Int) : List Stmt :=
  [ .func "f" ["a", "b"] [.ret [.var "a", .oper "sub", .var "b"]],
    .assign "x" [.const (.int v)],
    .assign "r" [.call "f" [[.var "x"], [.const (.int w)]]] ]

/-- C3: a body reading a name bound only in the caller. -/
def callerLocalProg : List Stmt :=
  [ .func "f" [] [.ret [.var "x"]],
    .assign "x" [.const (.int 1)],
    .assign "r" [.call "f" []] ]

/-- C3: a sibling registered before the call is visible in the body. -/
def siblingProg : List Stmt :=
  [ .func "g" [] [.ret [.const (.int 9)]],
    .func "f" [] [.ret [.call "g" []]],
    .assign "r" [.call "f" []] ]

end Mercury

namespace Mercury

/-! ## Definitions for C10: determinism of a second run -/

/-- Dict extension: every entry of `a` is present with the same value in
`b`.  The function table of a re-run starts with the previous run's
registrations; execution only ever *reads* entries it registered itself,
and registration overwrites, so extension is the invariant that makes the
two runs march in lockstep. -/
def ftExtends (a b : FTable) : Prop :=
  ∀ n d, alLookup a n = some d → alLookup b n = some d

/-- Relation between the `function_table` references of two runs: both the
shared default dict, or two local copies one extending the other. -/
def tblRel : TblRef → TblRef → Prop
  | .shared, .shared => True
  | .localT a, .localT b => ftExtends a b
  | _, _ => False

/-- The simulation relation for C10: equal variables and input streams,
extension-related tables.  Outputs are unconstrained: nothing reads them. -/
def sRel (s₁ s₂ : S) : Prop :=
  s₁.vars = s₂.vars ∧ tblRel s₁.tbl s₂.tbl ∧ ftExtends s₁.shared s₂.shared ∧
    s₁.inp = s₂.inp

/-- No `Output` and no `Input` statement anywhere in the tree (the claim's
"no Input and no Output statements"). -/
def stmtsPure : List Stmt → Bool
  | [] => true
  | .output _ :: _ => false
  | .input _ :: _ => false
  | .ifS _ b :: rest => stmtsPure b && stmtsPure rest
  | .loop _ _ b :: rest => stmtsPure b && stmtsPure rest
  | .func _ _ b :: rest => stmtsPure b && stmtsPure rest
  | _ :: rest => stmtsPure rest

/-- The C10 witness program: define `f`, then call it. -/
def rerunWitnessProg : List Stmt :=
  [.func "f" [] [.ret [.const (.int 2)]], .assign "x" [.call "f" []]]

/-! ## Claim theorems -/

/-- Helper for C1: on a bare `","` token the expression loop consumes
nothing and recurses forever, so every fuel bound is exhausted. -/
theorem tpeGo_comma_stuck (f : Nat) (st : PSt) (acc : List Item) :
    tpeGo f st (.loopJ acc [","]) = Option.none := by
  induction f with
  | zero => rfl
  | succ f ih =>
    have step : tpeGo (f + 1) st (.loopJ acc [","]) = tpeGo f st (.loopJ acc [","]) := rfl
    rw [step]; exact ih

/-- Helper for C1: same divergence on the token `"5.5"`, which is neither
an integer, a lowercase word, nor a title-case word. -/
theorem tpeGo_float_stuck (f : Nat) (st : PSt) (acc : List Item) :
    tpeGo f st (.loopJ acc ["5.5"]) = Option.none := by
  induction f with
  | zero => rfl
  | succ f ih =>
    have step : tpeGo (f + 1) st (.loopJ acc ["5.5"]) = tpeGo f st (.loopJ acc ["5.5"]) := rfl
    rw [step]; exact ih

/-- C1: the claim says `try_parse_expression` terminates on every token
list, silently skipping unmatched tokens.  In fact a token that matches
none of the operator / string-literal / numeric-constant / variable
parsers (a bare `","`, or `"5.5"`) is never consumed: the `while` loop
body falls through without slicing `tokens`, so the function never
returns — for every fuel bound the evaluation is still running.  (It is
true that it never raises.) -/
theorem C1_try_parse_expression_diverges_on_unmatched_token (fuel : Nat) (st : PSt) :
    try_parse_expression fuel st [","] = Option.none ∧
    try_parse_expression fuel st ["5.5"] = Option.none := by
  constructor
  · unfold try_parse_expression
    rw [tpeGo_comma_stuck]
  · unfold try_parse_expression
    rw [tpeGo_float_stuck]

/-- C2 (counterexample): a statement inside an `If` block is *not* always
evaluated against the enclosing scope's function table.  Here `f`'s body
registers `g` in the body's copied table and then enters an `If` block;
the block call `eval_statements(statement[2], variables)` omits
`function_table`, so the block runs on the process-wide default dict,
which does not contain `g`, and the call to `g` is a fatal error — under
the claim it would resolve. -/
theorem C2_counterexample_block_call_in_function_body :
    run_program 64 innerDefProg (procStart []) =
      some (.error (.valueError "Cannot find function of name g")) := rfl

/-- C2 (amended): a statement inside an `If` or `Loop` block is evaluated
against the same *variable environment* as the enclosing scope and against
the process-wide default function table — which coincides with the
enclosing scope's table at top level.  In particular, for a top-level
`FunctionDef` executed before an `If` (or `Loop`) block containing a call
to it, the call resolves to that definition: below, both the call from the
`Until` block and the call from the `If` block return the function's
value, and the blocks' assignments land in the top-level environment. -/
theorem C2_amended_blocks_use_default_table (k : Int) :
    (run_program 64 (topLevelBlockCallProg k) (procStart [])).map
        (·.map (fun r => (r.1.vars, r.2))) =
      some (.ok ([("done", .bool true), ("r", .int k), ("s", .int k)], Option.none)) := rfl

/-- C3 (counterexample): `eval_function_call` passes
`function_table.copy()` to the body, so a `FunctionDef` executed inside
the body is registered only in that copy and is *not* visible to the
caller afterwards: calling `g` after `f` has defined it is a fatal
error — under the claim it would resolve. -/
theorem C3_counterexample_body_definition_not_visible_to_caller :
    run_program 64 bodyDefProg (procStart []) =
      some (.error (.valueError "Cannot find function of name g")) := rfl

/-- C3 (amended): a call to a registered function binds each formal
parameter, in declared order, to the corresponding argument evaluated in
the caller's environment (`f(a, b)` called on `(x, w)` with `x = v`
returns `a - b = v - w`); the body runs in a brand-new local environment
with only those bindings (reading a caller local is a fatal error); and
the body runs against a *copy* of the caller's function table taken at
call time, so previously registered siblings are callable from it. -/
theorem C3_amended_call_binds_args_fresh_locals_copied_table (v w : Int) :
    (run_program 64 (subCallProg v w) (procStart [])).map
        (·.map (fun r => (r.1.vars, r.2))) =
      some (.ok ([("x", .int v), ("r", .int (v - w))], Option.none)) ∧
    run_program 64 callerLocalProg (procStart []) =
      some (.error (.valueError "Variable used before asignment x")) ∧
    (run_program 64 siblingProg (procStart [])).map
        (·.map (fun r => (r.1.vars, r.2))) =
      some (.ok ([("r", .int 9)], Option.none)) := ⟨rfl, rfl, rfl⟩

/-- Helper for C4: with `x = 4` the loop never makes progress — `Turn
down` computes `round(4 - 0.5) = round(3.5) = 4` (ties to even), so the
state repeats and every fuel bound is exhausted. -/
theorem loopStuckAtFour : ∀ f, evalFuel f (.stmt1 untilZeroLoop) (xSt 4) = Option.none := by
  intro f
  induction f using Nat.strong_induction_on with
  | _ f ih =>
    match f, ih with
    | 0, _ => rfl
    | 1, _ => rfl
    | 2, _ => rfl
    | 3, _ => rfl
    | (g + 4), ih =>
      have step : evalFuel (g + 4) (.stmt1 untilZeroLoop) (xSt 4) =
          evalFuel (g + 3) (.stmt1 untilZeroLoop) (xSt 4) := rfl
      rw [step]
      exact ih (g + 3) (by omega)

/-- Helper for C4: from `x = 5` one iteration (`round(4.5) = 4`) reaches
the stuck state. -/
theorem loopFromFive : ∀ f, evalFuel f (.stmt1 untilZeroLoop) (xSt 5) = Option.none := by
  intro f
  match f with
  | 0 => rfl
  | 1 => rfl
  | 2 => rfl
  | 3 => rfl
  | (g + 4) =>
    have step : evalFuel (g + 4) (.stmt1 untilZeroLoop) (xSt 5) =
        evalFuel (g + 3) (.stmt1 untilZeroLoop) (xSt 4) := rfl
    rw [step]
    exact loopStuckAtFour (g + 3)

/-- Helper for C4: the statement list around the loop diverges too. -/
theorem stmtsFromFive : ∀ f, evalFuel f (.stmts [untilZeroLoop]) (xSt 5) = Option.none := by
  intro f
  match f with
  | 0 => rfl
  | (k + 1) =>
    have step : evalFuel (k + 1) (.stmts [untilZeroLoop]) (xSt 5) =
        (match evalFuel k (.stmt1 untilZeroLoop) (xSt 5) with
         | Option.none => Option.none
         | some (.error er) => some (.error er)
         | some (.ok (s', _)) => evalFuel k (.stmts []) s') := rfl
    rw [step, loopFromFive k]

/-- Helper for C4: the whole program never returns, with any fuel. -/
theorem countdownRunsForever :
    ∀ f, run_program f countdownProg (procStart []) = Option.none := by
  intro f
  match f with
  | 0 => rfl
  | 1 => rfl
  | 2 => rfl
  | 3 => rfl
  | (m + 4) =>
    have step : run_program (m + 4) countdownProg (procStart []) =
        evalFuel (m + 3) (.stmts [untilZeroLoop]) (xSt 5) := rfl
    rw [step]
    exact stmtsFromFive (m + 3)

/-- C4 (counterexample): the claim says the program with `X = 5` and a
`Turn down` body loops `Until X is 0` exactly 5 times and terminates.  It
never terminates: no fuel bound suffices for `run_program` to return —
after one iteration `X` is `4`, and `round(4 - 0.5) = round(3.5) = 4`
(ties to even), so `X` never changes again. -/
theorem C4_counterexample_countdown_never_terminates :
    ¬ ∃ fuel r, run_program fuel countdownProg (procStart []) = some r := by
  rintro ⟨fuel, r, h⟩
  rw [countdownRunsForever fuel] at h
  exact Option.noConfusion h

/-- Helper for C4: `round(n + 0.5)` with ties to even is `n` for even `n`
and `n + 1` for odd `n`. -/
theorem pyRound_half_up (n : Int) :
    pyRound ⟨n * 2 + 1 * 1, 1 * 2⟩ = if n % 2 = 0 then n else n + 1 := by
  simp only [pyRound, Int.fdiv_eq_ediv _ (by norm_num : (0:Int) ≤ 1 * 2)]
  split_ifs <;> omega

/-- Helper for C4: `round(n - 0.5)` with ties to even is `n` for even `n`
and `n - 1` for odd `n` — so `Turn down` never moves an even value. -/
theorem pyRound_half_down (n : Int) :
    pyRound ⟨n * 2 - 1 * 1, 1 * 2⟩ = if n % 2 = 0 then n else n - 1 := by
  simp only [pyRound, Int.fdiv_eq_ediv _ (by norm_num : (0:Int) ≤ 1 * 2)]
  split_ifs <;> omega

/-- C4 (amended): a `Turn` statement evaluates the variable's current
value, adds (`up`) or subtracts (`down`) `0.5`, then rounds to the
nearest integer with ties to even.  On an integer `n` with `|n| < 2^52`
— the range where binary64 arithmetic on `n ± 0.5` is exact, so Python's
float coercion does not intervene and the exact-fraction model is
faithful — the result is `n` itself when `n` is even and `n ± 1` when `n`
is odd.  Consequently the program with `X` initialised to `5` and a
`Turn down` body does *not* count down to `0`: after one iteration `X`
is `4`, `round(3.5) = 4` leaves it there, and the loop `Until X is 0`
never terminates. -/
theorem C4_amended_turn_ties_to_even_loop_diverges (n : Int)
    (_hn : n.natAbs < 2 ^ 52) :
    eval_statement 1 (.turn "up" (some "x")) (xSt n) =
      some (.ok (xSt (if n % 2 = 0 then n else n + 1), Option.none)) ∧
    eval_statement 1 (.turn "down" (some "x")) (xSt n) =
      some (.ok (xSt (if n % 2 = 0 then n else n - 1), Option.none)) ∧
    (∀ fuel, run_program fuel countdownProg (procStart []) = Option.none) := by
  refine ⟨?_, ?_, countdownRunsForever⟩
  · have h : eval_statement 1 (.turn "up" (some "x")) (xSt n) =
        some (.ok (xSt (pyRound ⟨n * 2 + 1 * 1, 1 * 2⟩), Option.none)) := rfl
    rw [h, pyRound_half_up]
  · have h : eval_statement 1 (.turn "down" (some "x")) (xSt n) =
        some (.ok (xSt (pyRound ⟨n * 2 - 1 * 1, 1 * 2⟩), Option.none)) := rfl
    rw [h, pyRound_half_down]

/-- Witness for C4 at `n = 5` (the program's initial value, odd: `Turn
down` takes it to `4`) — the bound `|5| < 2^52` is discharged
concretely. -/
theorem C4_witness_turn_at_five :
    ((5 : Int).natAbs < 2 ^ 52) ∧
    (eval_statement 1 (.turn "up" (some "x")) (xSt 5) =
      some (.ok (xSt (if (5 : Int) % 2 = 0 then 5 else 5 + 1), Option.none)) ∧
    eval_statement 1 (.turn "down" (some "x")) (xSt 5) =
      some (.ok (xSt (if (5 : Int) % 2 = 0 then 5 else 5 - 1), Option.none)) ∧
    (∀ fuel, run_program fuel countdownProg (procStart []) = Option.none)) :=
  ⟨by norm_num, C4_amended_turn_ties_to_even_loop_diverges 5 (by norm_num)⟩

/-- C5 (counterexample): on the one-line program `Give back 5` the run
does not fail "in the documented recovered way": `parse_line` accepts the
line, so no diagnostic is reported and the run is not marked failed;
the error is raised later by `treeify`, outside the per-line handler, and
escapes `parse_source` as an uncaught exception — the outcome is an
`error`, never the recovered `failed` outcome. -/
theorem C5_counterexample_return_outside_function_uncaught :
    parse_source 64 "Give back 5" =
      some (.error (.rockstar "\"Give back\" statement has to be in function")) ∧
    (∀ diags, parse_source 64 "Give back 5" ≠ some (.ok (.failed diags))) := by
  refine ⟨rfl, fun diags h => ?_⟩
  rw [show parse_source 64 "Give back 5" =
      some (.error (.rockstar "\"Give back\" statement has to be in function")) from rfl] at h
  simp at h

/-- C5 (amended): a `Give back` outside any function parses fine at line
level (the statement is kept, no diagnostic, the run is not marked
failed); the "has to be in function" error is raised by `treeify` after
the per-line loop, is caught by nothing, and propagates out of
`parse_source`, so evaluation never starts but the process aborts with an
unhandled exception. -/
theorem C5_amended_treeify_error_escapes_recovery :
    parse_line 64 Option.none "Give back 5" =
      some (.ok (.ret [.const (.int 5)], Option.none)) ∧
    treeify 64 [.ret [.const (.int 5)]] false =
      some (.error (.rockstar "\"Give back\" statement has to be in function")) ∧
    parse_source 64 "Give back 5" =
      some (.error (.rockstar "\"Give back\" statement has to be in function")) := ⟨rfl, rfl, rfl⟩

/-- C6: a non-empty line whose token list is a single token matching
neither an output keyword nor `Put`/`Let`/`If`/`Until`/`While`/`Turn`
reaches the unguarded `tokens[1]` of the function-definition check and
raises the host `IndexError` (not a `RockstarSyntaxError`); the per-line
recovery of `parse_source` catches only `RockstarSyntaxError`, so on the
line `Hello` the whole parse aborts with that host error instead of a
formatted diagnostic. -/
theorem C6_one_token_line_raises_host_index_error (fuel : Nat) (st : PSt) (src t : String)
    (h1 : py_lower t ∉ (["say", "shout", "whisper", "scream"] : List String))
    (h2 : t ∉ (["Put", "Let", "If", "Until", "While", "Turn"] : List String)) :
    parse_line_tokens fuel st src [t] = some (.error .indexError) ∧
    parse_line 64 Option.none "Hello" = some (.error .indexError) ∧
    parse_source 64 "Hello" = some (.error .indexError) := by
  refine ⟨?_, rfl, rfl⟩
  simp only [List.mem_cons, List.not_mem_nil, not_or, or_false] at h2
  obtain ⟨hPut, hLet, hIf, hUntil, hWhile, hTurn⟩ := h2
  simp only [parse_line_tokens]
  rw [if_neg h1, if_neg (by simp), if_neg hPut, if_neg hLet, if_neg hIf, if_neg hUntil,
    if_neg hWhile, if_neg hTurn]

/-- Witness for C6 at the concrete token `"Hello"`. -/
theorem C6_witness_hello_line :
    parse_line_tokens 64 Option.none "Hello" ["Hello"] = some (.error .indexError) ∧
    parse_line 64 Option.none "Hello" = some (.error .indexError) ∧
    parse_source 64 "Hello" = some (.error .indexError) :=
  C6_one_token_line_raises_host_index_error 64 Option.none "Hello" "Hello"
    (by decide) (by decide)

/-- C7 (counterexample): the claim says that on an unterminated string or
comment the trailing partial token is dropped.  It is not: the
tokenizer's final unconditional `tokens.append(source[last:].strip())`
emits it, so `tokenize "Say \"hello"` contains a token derived from the
text after the unmatched quote, and `tokenize "Say (hello"` one derived
from the text after the unmatched paren. -/
theorem C7_counterexample_trailing_partial_token_kept :
    "\"hello" ∈ tokenize "Say \"hello" ∧ "hello" ∈ tokenize "Say (hello" := by
  rw [show tokenize "Say \"hello" = ["Say", "\"hello"] from rfl,
    show tokenize "Say (hello" = ["Say", "hello"] from rfl]
  exact ⟨by simp, by simp⟩

/-- C7 (amended): on an unterminated string the trailing partial text is
emitted as a final token including the opening quote; on an unterminated
comment the text after the `(` is emitted as a token.  Nothing is
dropped. -/
theorem C7_amended_trailing_text_becomes_token :
    tokenize "Say \"hello" = ["Say", "\"hello"] ∧
    tokenize "Say (hello" = ["Say", "hello"] := ⟨rfl, rfl⟩

/-- C8: `try_parse_variable_name` on `["a", "horse"]` consumes both
tokens and yields `"a#horse"`; on `["Dr", "Feel", "Good"]` it consumes
all three and yields `"dr_feel_good"`; and a pronoun parsed immediately
after either of those parses yields the same canonical name, because
every successful variable parse updates the shared last-parsed-variable
state (third component). -/
theorem C8_variable_name_parses_and_pronoun_state :
    try_parse_variable_name Option.none ["a", "horse"] =
      (some "a#horse", [], some "a#horse") ∧
    try_parse_variable_name Option.none ["Dr", "Feel", "Good"] =
      (some "dr_feel_good", [], some "dr_feel_good") ∧
    try_parse_variable_name (some "a#horse") ["it"] =
      (some "a#horse", [], some "a#horse") ∧
    try_parse_variable_name (some "dr_feel_good") ["she"] =
      (some "dr_feel_good", [], some "dr_feel_good") := ⟨rfl, rfl, rfl, rfl⟩

/-- C9 (counterexample): the claim says each digit is the token's
*letter* count modulo 10, but the source counts letters **and hyphens**
(line 117): on the single token `"a-"` the produced constant is `2`,
while the letter count is `1`. -/
theorem C9_counterexample_hyphen_counted_as_letter :
    parse_poetic_number_literals ["a-"] = .int 2 ∧
    ("a-".data.filter Char.isAlpha).length % 10 = 1 := ⟨rfl, rfl⟩

/-- Helper for C9: with no `.`-bearing token the first loop folds every
token's letter-or-hyphen digit most-significant-first and consumes the
whole list. -/
theorem poeticInt_no_dot : ∀ (tokens : List String) (acc : Nat),
    (∀ t ∈ tokens, t.data.contains '.' = false) →
    poeticInt acc tokens =
      (tokens.foldl (fun a t => a * 10 + letterHyphenCount t % 10) acc, []) := by
  intro tokens
  induction tokens with
  | nil => intro acc _; rfl
  | cons t rest ih =>
    intro acc h
    have ht : t.data.contains '.' = false := h t (by simp)
    have hrest : ∀ u ∈ rest, u.data.contains '.' = false := fun u hu => h u (by simp [hu])
    simp only [poeticInt, ht, Bool.false_eq_true, if_false, List.foldl_cons]
    exact ih _ hrest

/-- C9 (amended): each token contributes its letter-**or-hyphen** count
modulo 10 as one decimal digit, accumulated most-significant-first; a
token containing `.` ends the integer part (contributing its own digit to
it) and each subsequent token contributes one decimal place.  On
`["a", "lovestruck", "ladykiller"]` the result is the integer `100`; on
`["abc.", "ab"]` it is the float `3.2`. -/
theorem C9_amended_letter_or_hyphen_digits (tokens : List String)
    (h : ∀ t ∈ tokens, t.data.contains '.' = false) :
    parse_poetic_number_literals tokens =
      .int (tokens.foldl (fun (a : Nat) t => a * 10 + letterHyphenCount t % 10) 0 : Nat) ∧
    parse_poetic_number_literals ["a", "lovestruck", "ladykiller"] = .int 100 ∧
    parse_poetic_number_literals ["abc.", "ab"] = .rat ⟨32, 10⟩ := by
  refine ⟨?_, rfl, rfl⟩
  simp only [parse_poetic_number_literals]
  rw [poeticInt_no_dot tokens 0 h]
  rfl

/-- Witness for C9 at the tokens of "Tommy was a lovestruck ladykiller". -/
theorem C9_witness_lovestruck :
    parse_poetic_number_literals ["a", "lovestruck", "ladykiller"] =
      .int ((["a", "lovestruck", "ladykiller"] : List String).foldl
        (fun (a : Nat) t => a * 10 + letterHyphenCount t % 10) 0 : Nat) ∧
    parse_poetic_number_literals ["a", "lovestruck", "ladykiller"] = .int 100 ∧
    parse_poetic_number_literals ["abc.", "ab"] = .rat ⟨32, 10⟩ :=
  C9_amended_letter_or_hyphen_digits ["a", "lovestruck", "ladykiller"] (by decide)

end Mercury


namespace Mercury

/-! ## C10: helper lemmas and the lockstep simulation -/

theorem alLookup_alInsert {α : Type} (l : List (String × α)) (k : String) (v : α) (n : String) :
    alLookup (alInsert l k v) n = if n = k then some v else alLookup l n := by
  induction l with
  | nil =>
    simp only [alInsert, alLookup]
    by_cases h : n = k
    · subst h; simp
    · rw [if_neg (fun hh => h hh.symm), if_neg h]
  | cons p rest ih =>
    obtain ⟨k', v'⟩ := p
    simp only [alInsert]
    by_cases hk : k' = k
    · subst hk
      simp only [if_pos rfl, alLookup]
      by_cases hn : k' = n
      · subst hn; simp
      · rw [if_neg hn, if_neg (fun hh => hn hh.symm), if_neg hn]
    · rw [if_neg hk]
      simp only [alLookup]
      by_cases hn : k' = n
      · subst hn
        simp [hk]
      · rw [if_neg hn, ih, if_neg hn]

theorem ftExtends_refl (t : FTable) : ftExtends t t := fun _ _ h => h

theorem ftExtends_nil (t : FTable) : ftExtends [] t := by
  intro n d h
  simp [alLookup] at h

theorem ftExtends_insert {a b : FTable} (h : ftExtends a b) (n : String) (d : FuncDef) :
    ftExtends (alInsert a n d) (alInsert b n d) := by
  intro m e hm
  rw [alLookup_alInsert] at hm ⊢
  by_cases hmn : m = n
  · simpa [hmn] using hm
  · rw [if_neg hmn] at hm ⊢
    exact h m e hm

theorem sRel_resolve {s₁ s₂ : S} (h : sRel s₁ s₂) :
    ftExtends (resolveTbl s₁) (resolveTbl s₂) := by
  obtain ⟨_, htbl, hsh, _⟩ := h
  unfold resolveTbl
  cases h₁ : s₁.tbl with
  | shared =>
    cases h₂ : s₂.tbl with
    | shared => exact hsh
    | localT b => rw [h₁, h₂] at htbl; exact absurd htbl (by simp [tblRel])
  | localT a =>
    cases h₂ : s₂.tbl with
    | shared => rw [h₁, h₂] at htbl; exact absurd htbl (by simp [tblRel])
    | localT b => rw [h₁, h₂] at htbl; exact htbl

theorem sRel_register {s₁ s₂ : S} (h : sRel s₁ s₂) (n : String) (d : FuncDef) :
    sRel (register s₁ n d) (register s₂ n d) := by
  obtain ⟨hv, htbl, hsh, hin⟩ := h
  cases h₁ : s₁.tbl with
  | shared =>
    cases h₂ : s₂.tbl with
    | shared =>
      refine ⟨?_, ?_, ?_, ?_⟩
      · simp [register, h₁, h₂, hv]
      · simp [register, h₁, h₂, tblRel]
      · simp only [register, h₁, h₂]
        exact ftExtends_insert hsh n d
      · simp [register, h₁, h₂, hin]
    | localT b => rw [h₁, h₂] at htbl; exact absurd htbl (by simp [tblRel])
  | localT a =>
    cases h₂ : s₂.tbl with
    | shared => rw [h₁, h₂] at htbl; exact absurd htbl (by simp [tblRel])
    | localT b =>
      rw [h₁, h₂] at htbl
      refine ⟨?_, ?_, ?_, ?_⟩
      · simp [register, h₁, h₂, hv]
      · simp only [register, h₁, h₂]
        exact ftExtends_insert htbl n d
      · simp [register, h₁, h₂]
        exact hsh
      · simp [register, h₁, h₂, hin]

theorem eval_evalable_rel {s₁ s₂ : S} (h : sRel s₁ s₂) (it : Item) :
    eval_evalable it s₁ = eval_evalable it s₂ := by
  obtain ⟨hv, -, -, -⟩ := h
  unfold eval_evalable
  rw [hv]

theorem resBind_ok {r : Res} {k : S → Option Val → Res} {s' : S} {v : Option Val}
    (h : resBind r k = some (.ok (s', v))) :
    ∃ s₀ v₀, r = some (.ok (s₀, v₀)) ∧ k s₀ v₀ = some (.ok (s', v)) := by
  match r with
  | Option.none => exact absurd h (by simp [resBind])
  | some (.error er) => exact absurd h (by simp [resBind])
  | some (.ok (s₀, v₀)) => exact ⟨s₀, v₀, rfl, h⟩

set_option maxHeartbeats 1000000 in
theorem evalSim : ∀ (f : Nat) (j : Job) (s₁ s₂ s₁' : S) (r : Option Val),
    sRel s₁ s₂ → evalFuel f j s₁ = some (.ok (s₁', r)) →
    ∃ s₂', evalFuel f j s₂ = some (.ok (s₂', r)) ∧ sRel s₁' s₂' ∧
      (s₁.inp = [] → s₁'.inp = []) := by
  intro f
  induction f with
  | zero =>
    intro j s₁ s₂ s₁' r _ h
    exact absurd h (by simp [evalFuel])
  | succ f ih =>
    intro j s₁ s₂ s₁' r hrel h
    match j with
    | .stmts [] =>
      simp only [evalFuel, Option.some.injEq, Except.ok.injEq, Prod.mk.injEq] at h ⊢
      obtain ⟨hs, hr⟩ := h
      subst hs; subst hr
      exact ⟨s₂, ⟨rfl, rfl⟩, hrel, fun hi => hi⟩
    | .stmts (Stmt.func n ps b :: rest) =>
      simp only [evalFuel] at h ⊢
      obtain ⟨t₁, ht₁, hrel₁, hinp₁⟩ := ih _ _ _ _ _ (sRel_register hrel n (ps, b)) h
      refine ⟨t₁, ht₁, hrel₁, fun hi => hinp₁ ?_⟩
      cases hh : s₁.tbl <;> simp [register, hh, hi]
    | .stmts (Stmt.ret e :: rest) =>
      simp only [evalFuel] at h ⊢
      obtain ⟨s₀, v₀, hr, hk⟩ := resBind_ok h
      simp only [Option.some.injEq, Except.ok.injEq, Prod.mk.injEq] at hk
      obtain ⟨hs, hv0⟩ := hk
      obtain ⟨t₀, ht, hrel', hinp'⟩ := ih _ _ _ _ _ hrel hr
      refine ⟨t₀, ?_, hs ▸ hrel', fun hi => hs ▸ hinp' hi⟩
      rw [ht]
      simp [resBind, hv0]
    | .stmts (Stmt.assign x e :: rest) =>
      simp only [evalFuel] at h ⊢
      obtain ⟨s₀, v₀, hr, hk⟩ := resBind_ok h
      obtain ⟨t₀, ht, hrel', hinp'⟩ := ih _ _ _ _ _ hrel hr
      obtain ⟨t₁, ht₁, hrel₁, hinp₁⟩ := ih _ _ _ _ _ hrel' hk
      exact ⟨t₁, by rw [ht]; simpa [resBind] using ht₁, hrel₁,
        fun hi => hinp₁ (hinp' hi)⟩
    | .stmts (Stmt.output e :: rest) =>
      simp only [evalFuel] at h ⊢
      obtain ⟨s₀, v₀, hr, hk⟩ := resBind_ok h
      obtain ⟨t₀, ht, hrel', hinp'⟩ := ih _ _ _ _ _ hrel hr
      obtain ⟨t₁, ht₁, hrel₁, hinp₁⟩ := ih _ _ _ _ _ hrel' hk
      exact ⟨t₁, by rw [ht]; simpa [resBind] using ht₁, hrel₁,
        fun hi => hinp₁ (hinp' hi)⟩
    | .stmts (Stmt.input x :: rest) =>
      simp only [evalFuel] at h ⊢
      obtain ⟨s₀, v₀, hr, hk⟩ := resBind_ok h
      obtain ⟨t₀, ht, hrel', hinp'⟩ := ih _ _ _ _ _ hrel hr
      obtain ⟨t₁, ht₁, hrel₁, hinp₁⟩ := ih _ _ _ _ _ hrel' hk
      exact ⟨t₁, by rw [ht]; simpa [resBind] using ht₁, hrel₁,
        fun hi => hinp₁ (hinp' hi)⟩
    | .stmts (Stmt.ifS c b :: rest) =>
      simp only [evalFuel] at h ⊢
      obtain ⟨s₀, v₀, hr, hk⟩ := resBind_ok h
      obtain ⟨t₀, ht, hrel', hinp'⟩ := ih _ _ _ _ _ hrel hr
      obtain ⟨t₁, ht₁, hrel₁, hinp₁⟩ := ih _ _ _ _ _ hrel' hk
      exact ⟨t₁, by rw [ht]; simpa [resBind] using ht₁, hrel₁,
        fun hi => hinp₁ (hinp' hi)⟩
    | .stmts (Stmt.loop w c b :: rest) =>
      simp only [evalFuel] at h ⊢
      obtain ⟨s₀, v₀, hr, hk⟩ := resBind_ok h
      obtain ⟨t₀, ht, hrel', hinp'⟩ := ih _ _ _ _ _ hrel hr
      obtain ⟨t₁, ht₁, hrel₁, hinp₁⟩ := ih _ _ _ _ _ hrel' hk
      exact ⟨t₁, by rw [ht]; simpa [resBind] using ht₁, hrel₁,
        fun hi => hinp₁ (hinp' hi)⟩
    | .stmts (Stmt.turn w v? :: rest) =>
      simp only [evalFuel] at h ⊢
      obtain ⟨s₀, v₀, hr, hk⟩ := resBind_ok h
      obtain ⟨t₀, ht, hrel', hinp'⟩ := ih _ _ _ _ _ hrel hr
      obtain ⟨t₁, ht₁, hrel₁, hinp₁⟩ := ih _ _ _ _ _ hrel' hk
      exact ⟨t₁, by rw [ht]; simpa [resBind] using ht₁, hrel₁,
        fun hi => hinp₁ (hinp' hi)⟩
    | .stmts (Stmt.endS :: rest) =>
      simp only [evalFuel] at h ⊢
      obtain ⟨s₀, v₀, hr, hk⟩ := resBind_ok h
      obtain ⟨t₀, ht, hrel', hinp'⟩ := ih _ _ _ _ _ hrel hr
      obtain ⟨t₁, ht₁, hrel₁, hinp₁⟩ := ih _ _ _ _ _ hrel' hk
      exact ⟨t₁, by rw [ht]; simpa [resBind] using ht₁, hrel₁,
        fun hi => hinp₁ (hinp' hi)⟩

    | .stmt1 (Stmt.assign x e) =>
      simp only [evalFuel] at h ⊢
      obtain ⟨s₀, v₀, hr, hk⟩ := resBind_ok h
      simp only [Option.some.injEq, Except.ok.injEq, Prod.mk.injEq] at hk
      obtain ⟨hs, hr0⟩ := hk
      subst hs; subst hr0
      obtain ⟨t₀, ht, hrel', hinp'⟩ := ih _ _ _ _ _ hrel hr
      obtain ⟨hv', htbl', hsh', hin'⟩ := hrel'
      refine ⟨{ t₀ with vars := alInsert t₀.vars x (v₀.getD .none) }, ?_, ?_, ?_⟩
      · rw [ht]; simp [resBind]
      · exact ⟨by simp [hv'], htbl', hsh', hin'⟩
      · intro hi; exact hinp' hi
    | .stmt1 (Stmt.output e) =>
      simp only [evalFuel] at h ⊢
      obtain ⟨s₀, v₀, hr, hk⟩ := resBind_ok h
      simp only [Option.some.injEq, Except.ok.injEq, Prod.mk.injEq] at hk
      obtain ⟨hs, hr0⟩ := hk
      subst hs; subst hr0
      obtain ⟨t₀, ht, hrel', hinp'⟩ := ih _ _ _ _ _ hrel hr
      obtain ⟨hv', htbl', hsh', hin'⟩ := hrel'
      refine ⟨{ t₀ with out := t₀.out ++ [pyStr (v₀.getD .none)] }, ?_, ?_, ?_⟩
      · rw [ht]; simp [resBind]
      · exact ⟨hv', htbl', hsh', hin'⟩
      · intro hi; exact hinp' hi
    | .stmt1 (Stmt.input x) =>
      simp only [evalFuel] at h ⊢
      obtain ⟨hv, htbl, hsh, hin⟩ := hrel
      cases hi1 : s₁.inp with
      | nil => simp only [hi1] at h; exact absurd h (by simp)
      | cons i restI =>
        simp only [hi1] at h
        simp only [Option.some.injEq, Except.ok.injEq, Prod.mk.injEq] at h
        obtain ⟨hs, hr0⟩ := h
        subst hs; subst hr0
        have hi2 : s₂.inp = i :: restI := by rw [← hin, hi1]
        simp only [hi2]
        refine ⟨_, rfl, ⟨by simp [hv], htbl, hsh, rfl⟩, ?_⟩
        intro hi
        exact absurd hi (by simp)
    | .stmt1 (Stmt.ifS c b) =>
      simp only [evalFuel] at h ⊢
      obtain ⟨s₀, v₀, hr, hk⟩ := resBind_ok h
      obtain ⟨t₀, ht, hrel', hinp'⟩ := ih _ _ _ _ _ hrel hr
      by_cases htr : pyTruthy (v₀.getD Val.none) = true
      · rw [if_pos htr] at hk
        obtain ⟨s₃, v₃, hb, hk2⟩ := resBind_ok hk
        simp only [Option.some.injEq, Except.ok.injEq, Prod.mk.injEq] at hk2
        obtain ⟨hs, hr0⟩ := hk2
        subst hs; subst hr0
        obtain ⟨hv', htbl', hsh', hin'⟩ := hrel'
        have hrelb : sRel { s₀ with tbl := TblRef.shared } { t₀ with tbl := TblRef.shared } :=
          ⟨hv', trivial, hsh', hin'⟩
        obtain ⟨t₃, htb, hrelb', hinpb⟩ := ih _ _ _ _ _ hrelb hb
        obtain ⟨hv₃, htbl₃, hsh₃, hin₃⟩ := hrelb'
        refine ⟨{ t₃ with tbl := t₀.tbl }, ?_, ⟨hv₃, htbl', hsh₃, hin₃⟩, ?_⟩
        · rw [ht]
          simp only [resBind]
          rw [if_pos htr, htb]
        · intro hi
          exact hinpb (hinp' hi)
      · rw [if_neg htr] at hk
        simp only [Option.some.injEq, Except.ok.injEq, Prod.mk.injEq] at hk
        obtain ⟨hs, hr0⟩ := hk
        subst hs; subst hr0
        refine ⟨t₀, ?_, hrel', fun hi => hinp' hi⟩
        rw [ht]
        simp only [resBind]
        rw [if_neg htr]
    | .stmt1 (Stmt.loop w c b) =>
      simp only [evalFuel] at h ⊢
      obtain ⟨s₀, v₀, hr, hk⟩ := resBind_ok h
      obtain ⟨t₀, ht, hrel', hinp'⟩ := ih _ _ _ _ _ hrel hr
      by_cases htr : pyEq (v₀.getD Val.none) (Val.bool w) = true
      · rw [if_pos htr] at hk
        obtain ⟨s₃, v₃, hb, hk2⟩ := resBind_ok hk
        obtain ⟨hv', htbl', hsh', hin'⟩ := hrel'
        have hrelb : sRel { s₀ with tbl := TblRef.shared } { t₀ with tbl := TblRef.shared } :=
          ⟨hv', trivial, hsh', hin'⟩
        obtain ⟨t₃, htb, hrelb', hinpb⟩ := ih _ _ _ _ _ hrelb hb
        obtain ⟨hv₃, htbl₃, hsh₃, hin₃⟩ := hrelb'
        have hrelc : sRel { s₃ with tbl := s₀.tbl } { t₃ with tbl := t₀.tbl } :=
          ⟨hv₃, htbl', hsh₃, hin₃⟩
        obtain ⟨t₄, ht₄, hrel₄, hinp₄⟩ := ih _ _ _ _ _ hrelc hk2
        refine ⟨t₄, ?_, hrel₄, ?_⟩
        · rw [ht]
          simp only [resBind]
          rw [if_pos htr, htb]
          simp only [resBind]
          exact ht₄
        · intro hi
          exact hinp₄ (hinpb (hinp' hi))
      · rw [if_neg htr] at hk
        simp only [Option.some.injEq, Except.ok.injEq, Prod.mk.injEq] at hk
        obtain ⟨hs, hr0⟩ := hk
        subst hs; subst hr0
        refine ⟨t₀, ?_, hrel', fun hi => hinp' hi⟩
        rw [ht]
        simp only [resBind]
        rw [if_neg htr]
    | .stmt1 (Stmt.turn w v?) =>
      cases v? with
      | none =>
        simp only [evalFuel] at h
        exact absurd h (by simp)
      | some x =>
        simp only [evalFuel] at h ⊢
        obtain ⟨hv, htbl, hsh, hin⟩ := hrel
        rw [← hv]
        cases hl : alLookup s₁.vars x with
        | none => simp only [hl] at h; exact absurd h (by simp)
        | some val =>
          simp only [hl] at h
          simp only [hl]
          cases hq : ratVal val with
          | none => simp only [hq] at h; exact absurd h (by simp)
          | some q =>
            simp only [hq] at h
            simp only [hq]
            simp only [Option.some.injEq, Except.ok.injEq, Prod.mk.injEq] at h
            obtain ⟨hs, hr0⟩ := h
            subst hs; subst hr0
            refine ⟨_, rfl, ⟨by rw [hv], htbl, hsh, hin⟩, fun hi => hi⟩
    | .stmt1 (Stmt.func n ps b) =>
      simp only [evalFuel] at h
      exact absurd h (by simp)
    | .stmt1 (Stmt.ret e) =>
      simp only [evalFuel] at h
      exact absurd h (by simp)
    | .stmt1 Stmt.endS =>
      simp only [evalFuel] at h
      exact absurd h (by simp)
    | .expr [] =>
      simp only [evalFuel] at h
      exact absurd h (by simp)
    | .expr (Item.call n args :: rest) =>
      simp only [evalFuel] at h ⊢
      obtain ⟨s₀, v₀, hr, hk⟩ := resBind_ok h
      obtain ⟨t₀, ht, hrel', hinp'⟩ := ih _ _ _ _ _ hrel hr
      obtain ⟨t₁, ht₁, hrel₁, hinp₁⟩ := ih _ _ _ _ _ hrel' hk
      exact ⟨t₁, by rw [ht]; simpa [resBind] using ht₁, hrel₁, fun hi => hinp₁ (hinp' hi)⟩
    | .expr (Item.const vv :: rest) =>
      simp only [evalFuel] at h ⊢
      rw [← eval_evalable_rel hrel]
      cases he : eval_evalable (Item.const vv) s₁ with
      | error er => simp only [he] at h; exact absurd h (by simp)
      | ok v =>
        simp only [he] at h
        simp only [he]
        exact ih _ _ _ _ _ hrel h
    | .expr (Item.var nm :: rest) =>
      simp only [evalFuel] at h ⊢
      rw [← eval_evalable_rel hrel]
      cases he : eval_evalable (Item.var nm) s₁ with
      | error er => simp only [he] at h; exact absurd h (by simp)
      | ok v =>
        simp only [he] at h
        simp only [he]
        exact ih _ _ _ _ _ hrel h
    | .expr (Item.oper o :: rest) =>
      simp only [evalFuel] at h ⊢
      rw [← eval_evalable_rel hrel]
      cases he : eval_evalable (Item.oper o) s₁ with
      | error er => simp only [he] at h; exact absurd h (by simp)
      | ok v =>
        simp only [he] at h
        simp only [he]
        exact ih _ _ _ _ _ hrel h
    | .exprLoop left [] =>
      simp only [evalFuel, Option.some.injEq, Except.ok.injEq, Prod.mk.injEq] at h ⊢
      obtain ⟨hs, hr⟩ := h
      subst hs; subst hr
      exact ⟨s₂, ⟨rfl, rfl⟩, hrel, fun hi => hi⟩
    | .exprLoop left [o] =>
      simp only [evalFuel] at h
      exact absurd h (by simp)
    | .exprLoop left (o :: Item.call n args :: rest') =>
      simp only [evalFuel] at h ⊢
      obtain ⟨s₀, v₀, hr, hk⟩ := resBind_ok h
      obtain ⟨t₀, ht, hrel', hinp'⟩ := ih _ _ _ _ _ hrel hr
      cases o with
      | oper opName =>
        cases happ : applyOp opName left (v₀.getD Val.none) with
        | error er => simp only [happ] at hk; exact absurd hk (by simp)
        | ok newLeft =>
          simp only [happ] at hk
          obtain ⟨t₁, ht₁, hrel₁, hinp₁⟩ := ih _ _ _ _ _ hrel' hk
          refine ⟨t₁, ?_, hrel₁, fun hi => hinp₁ (hinp' hi)⟩
          rw [ht]
          simp only [resBind, happ]
          exact ht₁
      | const vv => exact absurd hk (by simp [resBind])
      | var nm => exact absurd hk (by simp [resBind])
      | call nm aas => exact absurd hk (by simp [resBind])
    | .exprLoop left (o :: Item.const vv :: rest') =>
      simp only [evalFuel] at h ⊢
      rw [← eval_evalable_rel hrel]
      obtain ⟨s₀, v₀, hr, hk⟩ := resBind_ok h
      cases he : eval_evalable (Item.const vv) s₁ with
      | error er => simp only [he] at hr; exact absurd hr (by simp)
      | ok v =>
        simp only [he] at hr
        simp only [he]
        simp only [Option.some.injEq, Except.ok.injEq, Prod.mk.injEq] at hr
        obtain ⟨hs0, hv0⟩ := hr
        subst hs0; subst hv0
        cases o with
        | oper opName =>
          cases happ : applyOp opName left ((some v).getD Val.none) with
          | error er => simp only [happ] at hk; exact absurd hk (by simp)
          | ok newLeft =>
            simp only [happ] at hk
            obtain ⟨t₁, ht₁, hrel₁, hinp₁⟩ := ih _ _ _ _ _ hrel hk
            refine ⟨t₁, ?_, hrel₁, fun hi => hinp₁ hi⟩
            simp only [resBind, happ]
            exact ht₁
        | const v2 => exact absurd hk (by simp)
        | var nm => exact absurd hk (by simp)
        | call nm aas => exact absurd hk (by simp)
    | .exprLoop left (o :: Item.var nm2 :: rest') =>
      simp only [evalFuel] at h ⊢
      rw [← eval_evalable_rel hrel]
      obtain ⟨s₀, v₀, hr, hk⟩ := resBind_ok h
      cases he : eval_evalable (Item.var nm2) s₁ with
      | error er => simp only [he] at hr; exact absurd hr (by simp)
      | ok v =>
        simp only [he] at hr
        simp only [he]
        simp only [Option.some.injEq, Except.ok.injEq, Prod.mk.injEq] at hr
        obtain ⟨hs0, hv0⟩ := hr
        subst hs0; subst hv0
        cases o with
        | oper opName =>
          cases happ : applyOp opName left ((some v).getD Val.none) with
          | error er => simp only [happ] at hk; exact absurd hk (by simp)
          | ok newLeft =>
            simp only [happ] at hk
            obtain ⟨t₁, ht₁, hrel₁, hinp₁⟩ := ih _ _ _ _ _ hrel hk
            refine ⟨t₁, ?_, hrel₁, fun hi => hinp₁ hi⟩
            simp only [resBind, happ]
            exact ht₁
        | const v2 => exact absurd hk (by simp)
        | var nm3 => exact absurd hk (by simp)
        | call nm3 aas => exact absurd hk (by simp)
    | .exprLoop left (o :: Item.oper o2 :: rest') =>
      simp only [evalFuel] at h ⊢
      rw [← eval_evalable_rel hrel]
      obtain ⟨s₀, v₀, hr, hk⟩ := resBind_ok h
      cases he : eval_evalable (Item.oper o2) s₁ with
      | error er => simp only [he] at hr; exact absurd hr (by simp)
      | ok v =>
        simp only [he] at hr
        simp only [he]
        simp only [Option.some.injEq, Except.ok.injEq, Prod.mk.injEq] at hr
        obtain ⟨hs0, hv0⟩ := hr
        subst hs0; subst hv0
        cases o with
        | oper opName =>
          cases happ : applyOp opName left ((some v).getD Val.none) with
          | error er => simp only [happ] at hk; exact absurd hk (by simp)
          | ok newLeft =>
            simp only [happ] at hk
            obtain ⟨t₁, ht₁, hrel₁, hinp₁⟩ := ih _ _ _ _ _ hrel hk
            refine ⟨t₁, ?_, hrel₁, fun hi => hinp₁ hi⟩
            simp only [resBind, happ]
            exact ht₁
        | const v2 => exact absurd hk (by simp)
        | var nm3 => exact absurd hk (by simp)
        | call nm3 aas => exact absurd hk (by simp)
    | .callJ n args =>
      simp only [evalFuel] at h ⊢
      cases hl : alLookup (resolveTbl s₁) n with
      | none => simp only [hl] at h; exact absurd h (by simp)
      | some d =>
        simp only [hl] at h
        obtain ⟨ps, body⟩ := d
        simp only [sRel_resolve hrel n (ps, body) hl]
        exact ih _ _ _ _ _ hrel h
    | .bindRun [] acc body =>
      simp only [evalFuel] at h ⊢
      obtain ⟨s₀, v₀, hr, hk⟩ := resBind_ok h
      simp only [Option.some.injEq, Except.ok.injEq, Prod.mk.injEq] at hk
      obtain ⟨hs, hr0⟩ := hk
      subst hs; subst hr0
      obtain ⟨hv, htbl, hsh, hin⟩ := id hrel
      have hrelb : sRel { s₁ with vars := acc, tbl := TblRef.localT (resolveTbl s₁) }
          { s₂ with vars := acc, tbl := TblRef.localT (resolveTbl s₂) } :=
        ⟨rfl, sRel_resolve hrel, hsh, hin⟩
      obtain ⟨t₀, ht, hrelb', hinpb⟩ := ih _ _ _ _ _ hrelb hr
      obtain ⟨hv₀, htbl₀, hsh₀, hin₀⟩ := hrelb'
      refine ⟨{ t₀ with vars := s₂.vars, tbl := s₂.tbl }, ?_, ⟨hv, htbl, hsh₀, hin₀⟩, ?_⟩
      · rw [ht]
        simp [resBind]
      · intro hi
        exact hinpb hi
    | .bindRun ((p, a) :: restP) acc body =>
      simp only [evalFuel] at h ⊢
      obtain ⟨s₀, v₀, hr, hk⟩ := resBind_ok h
      obtain ⟨t₀, ht, hrel', hinp'⟩ := ih _ _ _ _ _ hrel hr
      obtain ⟨t₁, ht₁, hrel₁, hinp₁⟩ := ih _ _ _ _ _ hrel' hk
      exact ⟨t₁, by rw [ht]; simpa [resBind] using ht₁, hrel₁, fun hi => hinp₁ (hinp' hi)⟩


/-- C10: in a process whose default function table starts empty, if
`run_program` completes on an AST with no `Input`/`Output` statements,
then running `run_program` again on the same AST — in the process state
the first run left behind, with the function table still holding the
first run's registrations — returns the same value and ends with the
identical final top-level variable environment.  (The proof is a lockstep
simulation: the second run's tables extend the first run's at every step,
registration overwrites, and every lookup the first run performed
succeeded, so both runs read the same definitions.) -/
theorem C10_rerun_yields_identical_environment (fuel : Nat) (ast : List Stmt)
    (s₁ : S) (r : Option Val)
    (_hpure : stmtsPure ast = true)
    (h1 : run_program fuel ast (procStart []) = some (.ok (s₁, r))) :
    ∃ s₂, run_program fuel ast s₁ = some (.ok (s₂, r)) ∧ s₂.vars = s₁.vars := by
  have sRelRefl : ∀ s : S, sRel s s := by
    intro s
    refine ⟨rfl, ?_, ftExtends_refl _, rfl⟩
    cases s.tbl with
    | shared => trivial
    | localT t => exact ftExtends_refl t
  have h1' : evalFuel fuel (.stmts ast)
      { procStart [] with vars := [], tbl := TblRef.shared } = some (.ok (s₁, r)) := h1
  obtain ⟨-, -, -, hinp1⟩ := evalSim fuel (.stmts ast) _ _ s₁ r (sRelRefl _) h1'
  have hs1inp : s₁.inp = [] := hinp1 rfl
  have hrel0 : sRel { procStart [] with vars := [], tbl := TblRef.shared }
      { s₁ with vars := [], tbl := TblRef.shared } :=
    ⟨rfl, trivial, ftExtends_nil _, hs1inp.symm⟩
  obtain ⟨s₂, h2, hrel2, -⟩ := evalSim fuel (.stmts ast) _ _ s₁ r hrel0 h1'
  exact ⟨s₂, h2, hrel2.1.symm⟩

/-- Witness for C10: a program that registers `f` and calls it, run
twice. -/
theorem C10_witness_rerun :
    ∃ s₂, run_program 32 rerunWitnessProg
        (S.mk [("x", Val.int 2)] TblRef.shared
          [("f", ([], [Stmt.ret [Item.const (Val.int 2)]]))] [] []) =
      some (.ok (s₂, Option.none)) ∧
      s₂.vars = (S.mk [("x", Val.int 2)] TblRef.shared
          [("f", ([], [Stmt.ret [Item.const (Val.int 2)]]))] [] []).vars :=
  C10_rerun_yields_identical_environment 32 rerunWitnessProg
    (S.mk [("x", Val.int 2)] TblRef.shared
      [("f", ([], [Stmt.ret [Item.const (Val.int 2)]]))] [] [])
    Option.none (by simp [rerunWitnessProg, stmtsPure]) rfl


end Mercury
